import Mathlib

/-!
# Verification of the dependency-rewrite / git-workflow core

Shallow embedding of `src/content/library_upgrade.py` and the minimal
token-diff mode of `src/content/search_replace.py`.

Python strings are modelled as `List Char`.  Character classes follow
Python semantics on the characters exercised here: `pyIsSpace` is the
full Python `str.isspace` / `re \s` set; digit and word classes are the
ASCII sets (Python's `\d`/`\w` additionally match some non-ASCII
codepoints, none of which occur in this development except where
`pyIsDigit` models them explicitly for the `str.isdigit` anomaly).

The regular expressions in the source are compiled patterns with a
deterministic backtracking behaviour on these particular patterns (the
only choice points, `%%?` and the optional keyword groups, are resolved
greedily and their fallback branch can never succeed, as argued in the
doc comment of each scanner).  They are embedded as explicit
character-level scanners whose results carry the matched pieces, so that
`match.group(0) = slice of the input` is available as a reconstruction
lemma rather than an axiom.
-/

/-- Python `str.isspace` (equivalently, what `re`'s `\s` matches in
unicode mode): the ASCII whitespace characters plus the Unicode
whitespace codepoints. -/
def pyIsSpace (c : Char) : Bool :=
  c = ' ' || c = '\t' || c = '\n' || c = '\r' || c = '\x0b' || c = '\x0c' ||
  c = '\x1c' || c = '\x1d' || c = '\x1e' || c = '\x1f' || c = '\x85' || c = '\xa0' ||
  c = ' ' || c = ' ' || c = ' ' || c = ' ' || c = ' ' ||
  c = ' ' || c = ' ' || c = ' ' || c = ' ' || c = ' ' ||
  c = ' ' || c = ' ' || c = ' ' || c = ' ' || c = ' ' ||
  c = ' ' || c = '　'

/-- ASCII model of Python's `\w` (identifier continuation) class. -/
def pyIsWordChar (c : Char) : Bool :=
  c.isAlpha || c.isDigit || c = '_'

/-- Value of a list of ASCII decimal digits, most significant first
(the value `int(...)` computes on such a string). -/
def digitsToNat (ds : List Char) : Nat :=
  ds.foldl (fun n c => 10 * n + (c.toNat - '0'.toNat)) 0

/-- One segment of `parse_version` (`src/content/library_upgrade.py`
lines 26-31): if the segment satisfies `isdigit`, take `int(p)`;
otherwise take the leading run of `\d` digits (`re.match(r"(\d+)", p)`),
or 0 when there is none.  ASCII digit semantics (on ASCII input this is
exactly the Python behaviour; see `segValU` for the Unicode anomaly). -/
def segVal (p : List Char) : Nat :=
  if p ≠ [] ∧ p.all Char.isDigit then digitsToNat p
  else
    match p.takeWhile Char.isDigit with
    | [] => 0
    | ds => digitsToNat ds

/-- `parse_version` (`src/content/library_upgrade.py` lines 22-34):
strip everything from the first `-` on, split the remainder on `.`,
parse each segment with `segVal`, pad with zeros to length 3 and
truncate to the first three components. -/
def parse_version (v : List Char) : Nat × Nat × Nat :=
  let v0 := (v.splitOn '-').headI
  let nums := (v0.splitOn '.').map segVal
  let padded := nums ++ List.replicate (3 - nums.length) 0
  (padded.headI, padded.tail.headI, padded.tail.tail.headI)

/-- Python tuple comparison `old_tuple > new_tuple` on 3-tuples:
lexicographic strict greater-than. -/
def versionGt : Nat × Nat × Nat → Nat × Nat × Nat → Bool
  | (a1, a2, a3), (b1, b2, b3) =>
    if a1 ≠ b1 then decide (a1 > b1)
    else if a2 ≠ b2 then decide (a2 > b2)
    else decide (a3 > b3)

/-- `is_major_bump` (`src/content/library_upgrade.py` lines 37-41). -/
def is_major_bump (old_version new_version : List Char) : Bool :=
  decide ((parse_version new_version).1 > (parse_version old_version).1)

/-- Python `str.isdigit` on the characters appearing in this
development: true on the ASCII digits and also on superscript digits
such as `²` (Unicode `Numeric_Type=Digit` characters, for which
`int(...)` nevertheless raises `ValueError`).  The full Python predicate
accepts further such codepoints; they behave like the three listed. -/
def pyIsDigit (c : Char) : Bool :=
  c.isDigit || c = '¹' || c = '²' || c = '³'

/-- Python `int(p)` for a nonempty digit-class string: succeeds exactly
on strings of decimal digits (`Numeric_Type=Decimal`; ASCII model) and
raises otherwise. -/
def pyInt (p : List Char) : Option Nat :=
  if p ≠ [] ∧ p.all Char.isDigit then some (digitsToNat p) else none

/-- Unicode-faithful version of `segVal`: on a segment that satisfies
Python `str.isdigit` the source calls `int(p)`, which raises on
`Numeric_Type=Digit`-only characters such as `²`; `none` models that
uncaught `ValueError`. -/
def segValU (p : List Char) : Option Nat :=
  if p ≠ [] ∧ p.all pyIsDigit then pyInt p
  else
    match p.takeWhile Char.isDigit with
    | [] => some 0
    | ds => some (digitsToNat ds)

/-- Unicode-faithful `parse_version`: `none` models the uncaught
`ValueError` raised by `int(p)` on an `isdigit` segment that is not
made of decimal digits. -/
def parse_version_u (v : List Char) : Option (Nat × Nat × Nat) :=
  match ((((v.splitOn '-').headI).splitOn '.').mapM segValU) with
  | none => none
  | some nums =>
    let padded := nums ++ List.replicate (3 - nums.length) 0
    some (padded.headI, padded.tail.headI, padded.tail.tail.headI)

/-! ## Scanner primitives -/

/-- `litPrefix l s`: `l` is a (literal) leading run of `s`. -/
def litPrefix : List Char → List Char → Bool
  | [], _ => true
  | _ :: _, [] => false
  | a :: as, b :: bs => a = b && litPrefix as bs

/-- Consume an exact literal. -/
def eatLit (lit s : List Char) : Option (List Char × List Char) :=
  if litPrefix lit s then some (lit, s.drop lit.length) else none

/-- Consume a maximal (possibly empty) run of whitespace: `\s*`. -/
def eatSpaces (s : List Char) : List Char × List Char :=
  (s.takeWhile pyIsSpace, s.dropWhile pyIsSpace)

/-- Consume a maximal nonempty run of whitespace: `\s+`. -/
def eatSpaces1 (s : List Char) : Option (List Char × List Char) :=
  match s.takeWhile pyIsSpace with
  | [] => none
  | sp => some (sp, s.dropWhile pyIsSpace)

/-- Consume one expected character. -/
def eatChar (ch : Char) (s : List Char) : Option (List Char × List Char) :=
  match s with
  | [] => none
  | c :: cs => if c = ch then some ([ch], cs) else none

/-- Consume `%%?`: one `%`, plus a second one when present.  The regex
alternative of taking a single `%` when a second is present can never
lead to an overall match (the next pattern element after `\s*` is a
quote, which cannot match the leftover `%`), so the greedy choice is
exact. -/
def eatPcts (s : List Char) : Option (List Char × List Char) :=
  match s with
  | '%' :: '%' :: t => some (['%', '%'], t)
  | '%' :: t => some (['%'], t)
  | _ => none

/-- Consume `"([^"]+)"`: an opening quote, a maximal nonempty quote-free
run (the capture), and the closing quote. -/
def readQuoted (s : List Char) : Option (List Char × List Char) :=
  match s with
  | '"' :: t =>
    match t.takeWhile (fun c => c ≠ '"') with
    | [] => none
    | v =>
      match t.dropWhile (fun c => c ≠ '"') with
      | '"' :: r => some (v, r)
      | _ => none
  | _ => none

/-- The quoted form `"v"` of a version literal. -/
def quoteTok (v : List Char) : List Char :=
  '"' :: v ++ ['"']

/-! ## The dependency-declaration scanners

`lossless_upgrade` compiles
`("<group>"\s*%%?\s*"<artifact>"\s*%\s*)"([^"]+)"` and
`lossless_upgrade_variable_refs` compiles
`"<group>"\s*%%?\s*"<artifact>"\s*%\s*(?!")([a-zA-Z_]\w*)`
(`src/content/library_upgrade.py` lines 52-54 and 108-111).  Both share
the part up to and including `%\s*`; on that part the pattern is
deterministic (each `\s*` is followed by a non-space literal, and the
single-`%` fallback of `%%?` is dead whenever a second `%` is present),
so a backtracking-free scanner is an exact embedding. -/

/-- Match the shared pattern part `"<group>"\s*%%?\s*"<artifact>"\s*%\s*`
at the head of `s`; the first component of the result is the consumed
text (capture group 1 of the inline pattern). -/
def matchGAPre (g a s : List Char) : Option (List Char × List Char) :=
  match eatLit (quoteTok g) s with
  | none => none
  | some (c1, s1) =>
    match eatPcts (eatSpaces s1).2 with
    | none => none
    | some (c2, s3) =>
      match eatLit (quoteTok a) (eatSpaces s3).2 with
      | none => none
      | some (c3, s5) =>
        match eatChar '%' (eatSpaces s5).2 with
        | none => none
        | some (c4, s7) =>
          some (c1 ++ (eatSpaces s1).1 ++ c2 ++ (eatSpaces s3).1 ++ c3 ++
                  (eatSpaces s5).1 ++ c4 ++ (eatSpaces s7).1,
                (eatSpaces s7).2)

/-- One attempted match of the inline-literal pattern at the head of
`s`: the result is `(group 1, the version capture, the rest)`. -/
def matchAt (g a s : List Char) : Option (List Char × List Char × List Char) :=
  match matchGAPre g a s with
  | none => none
  | some (pre, r) =>
    match readQuoted r with
    | none => none
    | some (ver, rest) => some (pre, ver, rest)

/-- One attempted match of the variable-indirection pattern at the head
of `s`: the shared prefix part, then the negative lookahead `(?!")`, then
an identifier `[a-zA-Z_]\w*`; the result is `(identifier, rest)`. -/
def matchDepAt (g a s : List Char) : Option (List Char × List Char) :=
  match matchGAPre g a s with
  | none => none
  | some (_, r) =>
    match r with
    | [] => none
    | c :: t =>
      if c = '"' then none
      else if c.isAlpha || c = '_' then
        some (c :: t.takeWhile pyIsWordChar, t.dropWhile pyIsWordChar)
      else none

/-! ## `finditer` over the inline pattern, and `lossless_upgrade`

The scanning loops are written with an explicit step budget (`fuel`) so
that they are structural recursions the kernel can evaluate; `fuel =
s.length` always suffices because an attempted match either fails (the
scan advances one character) or succeeds consuming at least one
character, and the wrappers fix exactly that budget.  With insufficient
fuel a loop stops and returns the unscanned text as trailing text. -/

/-- `pattern.finditer(original)` for the inline pattern
(`src/content/library_upgrade.py` line 62): leftmost, non-overlapping
scanning.  Each element of the first component is
`(gap, group 1, version capture)` where `gap` is the text between the
previous match (or the start) and this match; the second component is
the text after the last match, so that
`original = gap₀ ++ m₀ ++ … ++ trailing`. -/
def findIterFuel (g a : List Char) : Nat → List Char → List (List Char × List Char × List Char) × List Char
  | 0, s => ([], s)
  | _ + 1, [] => ([], [])
  | fuel + 1, c :: cs =>
    match matchAt g a (c :: cs) with
    | some (pre, ver, rest) =>
      let res := findIterFuel g a fuel rest
      (([], pre, ver) :: res.1, res.2)
    | none =>
      match findIterFuel g a fuel cs with
      | ([], t) => ([], c :: t)
      | ((gap, pre, ver) :: ms, t) => ((c :: gap, pre, ver) :: ms, t)

/-- All matches of the inline pattern over `s`, with gaps and trailing
text. -/
def findIter (g a s : List Char) : List (List Char × List Char × List Char) × List Char :=
  findIterFuel g a s.length s

/-- The original text of one match together with its gap:
`gap ++ group1 ++ "<version>"`. -/
def pieceText (m : List Char × List Char × List Char) : List Char :=
  m.1 ++ m.2.1 ++ quoteTok m.2.2

/-- The per-match body of the `finditer` loop in `lossless_upgrade`
(`src/content/library_upgrade.py` lines 62-80): gap text, then either
the match's own text (when a policy gate skips it) or group 1 followed
by the quoted new version; the Boolean records whether this match was
rewritten. -/
def matchPiece (new_version : List Char) (threshold_enabled skip_major : Bool)
    (m : List Char × List Char × List Char) : List Char × Bool :=
  let gap := m.1
  let full_pre := m.2.1
  let old_version := m.2.2
  let old_tuple := parse_version old_version
  let new_tuple := parse_version new_version
  if threshold_enabled && versionGt old_tuple new_tuple then
    (gap ++ full_pre ++ quoteTok old_version, false)
  else if skip_major && is_major_bump old_version new_version then
    (gap ++ full_pre ++ quoteTok old_version, false)
  else
    (gap ++ full_pre ++ quoteTok new_version, true)

/-- `lossless_upgrade` (`src/content/library_upgrade.py` lines 43-87):
iterate the inline pattern's matches over `original`, emit the text
between matches verbatim, apply the two policy gates per match, and
return the joined parts when anything was rewritten (`upgraded_any`),
the untouched `original` otherwise. -/
def lossless_upgrade (original g a new_version : List Char)
    (threshold_enabled : Bool) (skip_major : Bool) : List Char × Bool :=
  let res := findIter g a original
  let pieces := res.1.map (matchPiece new_version threshold_enabled skip_major)
  let upgraded_any := pieces.any (fun p => p.2)
  let joined := (pieces.map (fun p => p.1)).flatten ++ res.2
  (if upgraded_any then joined else original, upgraded_any)

/-- The two policy gates as the specification states them: skip when
`onlyDowngradeProtect` is set and the existing version is strictly
greater than the target, else when `skipMajor` is set and the target's
major component exceeds the existing one's. -/
def gateSkipSpec (onlyDowngradeProtect skipMajor : Bool)
    (old_version new_version : List Char) : Bool :=
  (onlyDowngradeProtect && versionGt (parse_version old_version) (parse_version new_version))
  || (skipMajor && decide ((parse_version new_version).1 > (parse_version old_version).1))

/-- The DependencyRewriter's inline mode as the specification describes
it: every match is mapped to its own text when a gate skips it and to
`group 1` plus the quoted target version otherwise, the pieces and the
trailing text are always joined, and `changed` holds exactly when some
match is not skipped. -/
def dependencyRewriterSpec (original g a new_version : List Char)
    (onlyDowngradeProtect skipMajor : Bool) : List Char × Bool :=
  let res := findIter g a original
  ((res.1.map (fun m =>
      if gateSkipSpec onlyDowngradeProtect skipMajor m.2.2 new_version then pieceText m
      else m.1 ++ m.2.1 ++ quoteTok new_version)).flatten ++ res.2,
   res.1.any (fun m => !gateSkipSpec onlyDowngradeProtect skipMajor m.2.2 new_version))

/-! ## The variable-indirection mode

`lossless_upgrade_variable_refs` (`src/content/library_upgrade.py`
lines 90-153) collects the distinct identifiers used as version
references and, for each, rewrites the literal of its value binding
`((?:private\s+)?(?:lazy\s+)?(?:val|def)\s+<name>\s*(?::\s*String\s*)?=\s*)"([^"]+)"`
in the (current) file text.  The optional groups are deterministic: if
`private`/`lazy` plus at least one space is present it must be consumed
(the alternative path would have to match `lazy`/`val`/`def` against
the letter `p`/`l`, which fails), and likewise if `:` follows the name
the whole `:\s*String\s*` must be consumed because the fallback would
have to match `=` against `:`.  Python iterates the identifiers in set
order, which is unspecified; the model fixes the first-occurrence
order.  Warnings therefore appear in that order. -/

/-- Consume an optional keyword followed by at least one space
(`(?:private\s+)?` / `(?:lazy\s+)?`); `([], s)` when the group does not
participate in the match. -/
def eatOptKw (kw s : List Char) : List Char × List Char :=
  match eatLit kw s with
  | none => ([], s)
  | some (c, r) =>
    match r.takeWhile pyIsSpace with
    | [] => ([], s)
    | sp => (c ++ sp, r.dropWhile pyIsSpace)

/-- Consume `val` or `def` (ordered alternation; the two branches start
with different letters, so the choice is deterministic). -/
def eatValDef (s : List Char) : Option (List Char × List Char) :=
  match eatLit ("val".toList) s with
  | some (c, r) => some (c, r)
  | none => eatLit ("def".toList) s

/-- Consume the optional type ascription and the mandatory `=`:
`(?::\s*String\s*)?=`. -/
def eatTypeAsc (s : List Char) : Option (List Char × List Char) :=
  match s with
  | ':' :: t =>
    match eatLit ("String".toList) (t.dropWhile pyIsSpace) with
    | none => none
    | some (c, t2) =>
      match eatChar '=' (t2.dropWhile pyIsSpace) with
      | none => none
      | some (_, t4) =>
        some (':' :: t.takeWhile pyIsSpace ++ c ++ t2.takeWhile pyIsSpace ++ ['='], t4)
  | '=' :: t => some (['='], t)
  | _ => none

/-- One attempted match of the value-binding pattern at the head of `s`:
the result is `(group 1, the bound literal, the rest)`. -/
def matchValAt (name s : List Char) : Option (List Char × List Char × List Char) :=
  match eatValDef (eatOptKw ("lazy".toList) (eatOptKw ("private".toList) s).2).2 with
  | none => none
  | some (cVD, s3) =>
    match eatSpaces1 s3 with
    | none => none
    | some (sp1, s4) =>
      match eatLit name s4 with
      | none => none
      | some (cN, s5) =>
        match eatTypeAsc (s5.dropWhile pyIsSpace) with
        | none => none
        | some (cT, s7) =>
          match readQuoted (s7.dropWhile pyIsSpace) with
          | none => none
          | some (value, rest) =>
            some ((eatOptKw ("private".toList) s).1 ++
                    (eatOptKw ("lazy".toList) (eatOptKw ("private".toList) s).2).1 ++
                    cVD ++ sp1 ++ cN ++ s5.takeWhile pyIsSpace ++ cT ++
                    s7.takeWhile pyIsSpace, value, rest)

/-- `val_pattern.search(modified)` (`src/content/library_upgrade.py`
line 130): the leftmost match of the value-binding pattern, as
`(text before the match, group 1, the bound literal, the rest)`. -/
def valSearchGo (name : List Char) : List Char → Option (List Char × List Char × List Char × List Char)
  | [] => none
  | c :: cs =>
    match matchValAt name (c :: cs) with
    | some (pre, value, rest) => some ([], pre, value, rest)
    | none =>
      match valSearchGo name cs with
      | some (b, pre, value, rest) => some (c :: b, pre, value, rest)
      | none => none

/-- `dep_pattern.finditer(original)` collecting the referenced
identifiers in match order (`src/content/library_upgrade.py`
lines 119-120); fuel-based like `findIterFuel`. -/
def findDepsFuel (g a : List Char) : Nat → List Char → List (List Char)
  | 0, _ => []
  | _ + 1, [] => []
  | fuel + 1, c :: cs =>
    match matchDepAt g a (c :: cs) with
    | some (name, rest) => name :: findDepsFuel g a fuel rest
    | none => findDepsFuel g a fuel cs

/-- All identifiers referenced by variable-indirection dependency
declarations, in first-occurrence order. -/
def findDeps (g a s : List Char) : List (List Char) :=
  findDepsFuel g a s.length s

/-- First-occurrence deduplication: the model of iterating the Python
set `var_names` (whose iteration order is unspecified; the model fixes
the order in which `finditer` first produced each identifier). -/
def dedupFirst : List (List Char) → List (List Char) :=
  dedupFirstGo []
where
  dedupFirstGo (seen : List (List Char)) : List (List Char) → List (List Char)
    | [] => []
    | x :: xs =>
      if x ∈ seen then dedupFirstGo seen xs
      else x :: dedupFirstGo (x :: seen) xs

/-- The warning text built at `src/content/library_upgrade.py`
lines 132-135 (the two f-strings concatenate). -/
def warnMsg (name g a : List Char) : List Char :=
  ("Variable ".toList ++ [Char.ofNat 39] ++ name ++ [Char.ofNat 39] ++
    " used for ".toList ++ g ++ ":".toList ++ a ++
    " but its definition was not found in this file.".toList)

/-- The body of the `for var_name in var_names` loop
(`src/content/library_upgrade.py` lines 124-151), acting on the state
`(modified, upgraded_any, warnings)`: search the current text for the
identifier's value binding; missing binding appends a warning, a policy
gate preserves the state, otherwise the bound literal is replaced by the
target version in place. -/
def varStep (g a new_version : List Char) (threshold_enabled skip_major : Bool)
    (st : List Char × Bool × List (List Char)) (var_name : List Char) :
    List Char × Bool × List (List Char) :=
  match valSearchGo var_name st.1 with
  | none => (st.1, st.2.1, st.2.2 ++ [warnMsg var_name g a])
  | some (before, pre, old_version, rest) =>
    if threshold_enabled && versionGt (parse_version old_version) (parse_version new_version) then
      (st.1, st.2.1, st.2.2)
    else if skip_major && is_major_bump old_version new_version then
      (st.1, st.2.1, st.2.2)
    else
      (before ++ pre ++ quoteTok new_version ++ rest, true, st.2.2)

/-- The loop of `lossless_upgrade_variable_refs` once the identifier
list is known: Python's `for var_name in var_names` with the running
`modified`/`upgraded_any`/`warnings` state, starting from the given
text. -/
def varRefsGivenVars (vars : List (List Char)) (text g a new_version : List Char)
    (threshold_enabled skip_major : Bool) : List Char × Bool × List (List Char) :=
  if vars.isEmpty then (text, false, [])
  else vars.foldl (varStep g a new_version threshold_enabled skip_major) (text, false, [])

/-- `lossless_upgrade_variable_refs` (`src/content/library_upgrade.py`
lines 90-153): collect the distinct referenced identifiers from
`original`, return `(original, False, [])` when there are none, and
otherwise run the per-identifier loop. -/
def lossless_upgrade_variable_refs (original g a new_version : List Char)
    (threshold_enabled skip_major : Bool) : List Char × Bool × List (List Char) :=
  varRefsGivenVars (dedupFirst (findDeps g a original)) original g a new_version
    threshold_enabled skip_major

/-- `varStep` with the gates written as the specification phrases them
(`gateSkipSpec`), used to state the gate-ordering claim for the
variable-indirection mode. -/
def varStepSpec (g a new_version : List Char) (onlyDowngradeProtect skipMajor : Bool)
    (st : List Char × Bool × List (List Char)) (var_name : List Char) :
    List Char × Bool × List (List Char) :=
  match valSearchGo var_name st.1 with
  | none => (st.1, st.2.1, st.2.2 ++ [warnMsg var_name g a])
  | some (before, pre, old_version, rest) =>
    if gateSkipSpec onlyDowngradeProtect skipMajor old_version new_version then
      (st.1, st.2.1, st.2.2)
    else
      (before ++ pre ++ quoteTok new_version ++ rest, true, st.2.2)

/-- The variable-indirection mode as the specification describes it. -/
def variableRewriterSpec (original g a new_version : List Char)
    (onlyDowngradeProtect skipMajor : Bool) : List Char × Bool × List (List Char) :=
  if (dedupFirst (findDeps g a original)).isEmpty then (original, false, [])
  else
    (dedupFirst (findDeps g a original)).foldl
      (varStepSpec g a new_version onlyDowngradeProtect skipMajor) (original, false, [])

/-! ## Sequencing of the two modes inside the coordinator -/

/-- The per-library body of the file loop in
`LibraryUpgradeContent._upgrade` (`src/content/library_upgrade.py`
lines 404-429): the inline mode runs on the current text and the
variable-indirection mode runs on the inline mode's output; the file
counts as upgraded when either mode changed it. -/
def upgradeFileStep (text g a v : List Char) (th sm : Bool) :
    List Char × Bool × List (List Char) :=
  let r1 := lossless_upgrade text g a v th sm
  let r2 := lossless_upgrade_variable_refs r1.1 g a v th sm
  (r2.1, r1.2 || r2.2.1, r2.2.2)

/-- The sequencing as the specification describes it: each mode scans
the *original* text for its own pattern, so the variable-indirection
mode's dependency matches are taken from `text`, not from the inline
mode's output (its binding rewrites still apply to the running text). -/
def upgradeFileStepSpecScan (text g a v : List Char) (th sm : Bool) :
    List Char × Bool × List (List Char) :=
  let r1 := lossless_upgrade text g a v th sm
  let r2 := varRefsGivenVars (dedupFirst (findDeps g a text)) r1.1 g a v th sm
  (r2.1, r1.2 || r2.2.1, r2.2.2)

/-! ## Branch naming and the git workflow

`run_git` shells out to git and returns `(returncode, stdout.strip(),
stderr.strip())`; the external git and `gh` processes are modelled by an
environment of results, one per invocation kind.  `branch_exists`
(which combines a local `branch --list` and a remote `ls-remote` query)
is abstracted to the Boolean predicate it computes. -/

/-- A requested library upgrade (the dict built by `parse_libraries`). -/
structure LibSpec where
  group : String
  artifact : String
  version : String

/-- `build_branch_name` (`src/content/library_upgrade.py`
lines 200-205): join the artifact-version pairs and replace every
character outside the allowed set (ASCII letters, digits, dot,
underscore, slash, hyphen) by `-`. -/
def build_branch_name (libs : List LibSpec) : String :=
  let name := "upgrade-" ++ String.intercalate ("_")
    (libs.map (fun l => l.artifact ++ "-" ++ l.version))
  String.mk (name.toList.map (fun c =>
    if c.isAlpha || c.isDigit || c = '.' || c = '_' || c = '/' || c = '-' then c
    else '-'))

/-- `build_commit_message` (`src/content/library_upgrade.py`
lines 208-224). -/
def build_commit_message (libs : List LibSpec) : String :=
  match libs with
  | [l] =>
    "Upgrade " ++ l.artifact ++ " to " ++ l.version ++ "\n\n" ++
      "Bumps " ++ l.group ++ ":" ++ l.artifact ++ " to version " ++ l.version ++ "."
  | _ =>
    let title := "Upgrade libraries: " ++ String.intercalate (", ")
      (libs.map (fun l => l.artifact ++ " → " ++ l.version))
    let body := String.intercalate ("\n")
      ("Bumps the following dependencies:" ::
        libs.map (fun l => "  - " ++ l.group ++ ":" ++ l.artifact ++ " → " ++ l.version))
    title ++ "\n\n" ++ body

/-- `build_pr_body` (`src/content/library_upgrade.py` lines 227-233). -/
def build_pr_body (libs : List LibSpec) : String :=
  String.intercalate ("\n")
    (["## Library Upgrades", "", "| Group | Artifact | New Version |",
      "|-------|----------|-------------|"] ++
      libs.map (fun l => "| `" ++ l.group ++ "` | `" ++ l.artifact ++ "` | `"
        ++ l.version ++ "` |"))

/-- Python `str.strip()` (used on the `gh` subprocess's raw output). -/
def pyStrip (s : String) : String :=
  String.mk (((s.toList.dropWhile pyIsSpace).reverse.dropWhile pyIsSpace).reverse)

/-- `os.path.basename` for POSIX paths. -/
def basename (p : String) : String :=
  String.mk ((p.toList.reverse.takeWhile (fun c => c ≠ '/')).reverse)

/-- The counter loop of `make_unique_branch_name`
(`src/content/library_upgrade.py` lines 191-197), with an explicit
attempt budget standing in for the unbounded `while True` (`none` means
the budget ran out, which for the real code means every candidate up to
that point existed and it keeps looping). -/
def uniqueLoop (ex : String → Bool) (base : String) : Nat → Nat → Option String
  | _, 0 => none
  | counter, fuel + 1 =>
    let candidate := base ++ "-" ++ toString counter
    if !ex candidate then some candidate
    else uniqueLoop ex base (counter + 1) fuel

/-- `make_unique_branch_name` (`src/content/library_upgrade.py`
lines 186-197), over an arbitrary branch-existence predicate `ex` (the
code's `branch_exists`, combining local and remote lookups). -/
def make_unique_branch_name (ex : String → Bool) (base : String) (fuel : Nat) :
    Option String :=
  if !ex base then some base else uniqueLoop ex base 2 fuel

/-- Result of one external command: `(returncode, stdout, stderr)`. -/
structure ExecResult where
  code : Int
  out : String
  err : String

/-- The external world of one `git_workflow` run: the branch-existence
predicate and the results of the checkout, per-file add, commit, push
and `gh pr create` invocations.  For the git commands, `out`/`err` are
the already-stripped values `run_git` returns; the `gh` result is the
raw subprocess output (the code strips it at use). -/
structure GitEnv where
  branchExists : String → Bool
  checkout : String → ExecResult
  add : String → ExecResult
  commit : ExecResult
  push : String → ExecResult
  pr : ExecResult

/-- One external invocation performed by `git_workflow`, for stating
which steps ran. -/
inductive GitStep where
  | checkoutStep (branch : String)
  | addStep (file : String)
  | commitStep
  | pushStep (branch : String)
  | prStep
deriving DecidableEq

/-- The staging loop of `git_workflow` (`src/content/library_upgrade.py`
lines 252-255): add each changed file in order, aborting on the first
non-zero exit; returns the error message (if any) and the add steps that
actually ran. -/
def stageFiles (env : GitEnv) : List String → Option String × List GitStep
  | [] => (none, [])
  | f :: rest =>
    if (env.add f).code ≠ 0 then
      (some ("Failed to stage '" ++ f ++ "': " ++ (env.add f).err), [.addStep f])
    else
      match stageFiles env rest with
      | (e, steps) => (e, .addStep f :: steps)

/-- `git_workflow` (`src/content/library_upgrade.py` lines 235-294),
instrumented with the list of external invocations it performs.  `none`
models the non-termination of an exhausted branch-name search; otherwise
the result is `(success, message, steps run)`. -/
def git_workflow (env : GitEnv) (repo_root : String) (changed_files : List String)
    (libs : List LibSpec) (fuel : Nat) : Option (Bool × String × List GitStep) :=
  match make_unique_branch_name env.branchExists (build_branch_name libs) fuel with
  | none => none
  | some branch =>
    if (env.checkout branch).code ≠ 0 then
      some (false, "Failed to create branch '" ++ branch ++ "': " ++ (env.checkout branch).err,
        [.checkoutStep branch])
    else
      match stageFiles env changed_files with
      | (some msg, steps) => some (false, msg, .checkoutStep branch :: steps)
      | (none, steps) =>
        if env.commit.code ≠ 0 then
          some (false, "Failed to commit in '" ++ repo_root ++ "': " ++ env.commit.err,
            .checkoutStep branch :: steps ++ [.commitStep])
        else if (env.push branch).code ≠ 0 then
          some (false, "Failed to push branch '" ++ branch ++ "': " ++ (env.push branch).err,
            .checkoutStep branch :: steps ++ [.commitStep, .pushStep branch])
        else if env.pr.code ≠ 0 then
          some (false,
            "Branch '" ++ branch ++ "' pushed but PR creation failed: " ++ pyStrip env.pr.err,
            .checkoutStep branch :: steps ++ [.commitStep, .pushStep branch, .prStep])
        else
          some (true,
            "PR created for '" ++ basename repo_root ++ "': " ++ pyStrip env.pr.out,
            .checkoutStep branch :: steps ++ [.commitStep, .pushStep branch, .prStep])

/-- The step table the specification describes: each entry is the step,
its exit code and its failure message. -/
def workflowPlan (env : GitEnv) (repo_root branch : String) (files : List String) :
    List (GitStep × Int × String) :=
  (.checkoutStep branch, (env.checkout branch).code,
    "Failed to create branch '" ++ branch ++ "': " ++ (env.checkout branch).err)
  :: ((files.map (fun f => (.addStep f, (env.add f).code,
        "Failed to stage '" ++ f ++ "': " ++ (env.add f).err)))
  ++ [(.commitStep, env.commit.code,
        "Failed to commit in '" ++ repo_root ++ "': " ++ env.commit.err),
      (.pushStep branch, (env.push branch).code,
        "Failed to push branch '" ++ branch ++ "': " ++ (env.push branch).err),
      (.prStep, env.pr.code,
        "Branch '" ++ branch ++ "' pushed but PR creation failed: " ++ pyStrip env.pr.err)])

/-- Run a step table: execute steps in order; the first step with a
non-zero exit code aborts the remaining steps and yields its message. -/
def runPlan : List (GitStep × Int × String) → Option String × List GitStep
  | [] => (none, [])
  | (st, c, m) :: rest =>
    if c ≠ 0 then (some m, [st])
    else
      match runPlan rest with
      | (e, steps) => (e, st :: steps)

/-- The git workflow as the specification describes it: resolve a unique
branch name, run the steps of the plan aborting at the first failure
with that step's error message, and on full success report the created
PR's URL. -/
def gitWorkflowSpec (env : GitEnv) (repo_root : String) (changed_files : List String)
    (libs : List LibSpec) (fuel : Nat) : Option (Bool × String × List GitStep) :=
  match make_unique_branch_name env.branchExists (build_branch_name libs) fuel with
  | none => none
  | some branch =>
    match runPlan (workflowPlan env repo_root branch changed_files) with
    | (some m, steps) => some (false, m, steps)
    | (none, steps) =>
      some (true, "PR created for '" ++ basename repo_root ++ "': " ++ pyStrip env.pr.out,
        steps)

/-! ## The apply-mode phase of the coordinator

In apply mode `LibraryUpgradeContent._upgrade`
(`src/content/library_upgrade.py` lines 473-497) iterates the
repository groups of `repo_writes` in insertion order; for each group it
first writes that group's files to disk and then — unless the group is
the no-repository bucket — runs the git workflow for that repository,
continuing with the next group whatever the workflow result.  The model
records the observable events of that loop in order; the workflow result
oracle stands for the awaited `git_workflow` outcome, which only feeds
the notification. -/

inductive ApplyEvent where
  | writeFile (repo : Option String) (path : String)
  | runWorkflow (repo : String) (ok : Bool)
  | warnNoRepo (count : Nat)
deriving DecidableEq

/-- The event trace of the apply-mode loop over the repository groups
(`repo_root ↦ list of file paths`, in dict insertion order). -/
def applyPhase (oracle : String → Bool) :
    List (Option String × List String) → List ApplyEvent
  | [] => []
  | (root, paths) :: rest =>
    paths.map (ApplyEvent.writeFile root) ++
    (match root with
     | none => [ApplyEvent.warnNoRepo paths.length]
     | some r => [ApplyEvent.runWorkflow r (oracle r)]) ++
    applyPhase oracle rest

/-- The write events of a trace, in order. -/
def writeEvents : List ApplyEvent → List (Option String × String)
  | [] => []
  | ApplyEvent.writeFile r p :: rest => (r, p) :: writeEvents rest
  | _ :: rest => writeEvents rest

/-- `true` when no write event occurs after any workflow event (the
ordering claim as stated: all writes happen before any workflow
starts). -/
def allWritesBeforeWorkflows : Bool → List ApplyEvent → Bool
  | _, [] => true
  | seenWf, ApplyEvent.writeFile _ _ :: rest =>
    if seenWf then false else allWritesBeforeWorkflows seenWf rest
  | _, ApplyEvent.runWorkflow _ _ :: rest => allWritesBeforeWorkflows true rest
  | seenWf, ApplyEvent.warnNoRepo _ :: rest => allWritesBeforeWorkflows seenWf rest

/-- `true` when no write event of a repository occurs after that same
repository's workflow event. -/
def groupWritesFirst : List String → List ApplyEvent → Bool
  | _, [] => true
  | seen, ApplyEvent.writeFile (some r) _ :: rest =>
    if r ∈ seen then false else groupWritesFirst seen rest
  | seen, ApplyEvent.writeFile none _ :: rest => groupWritesFirst seen rest
  | seen, ApplyEvent.runWorkflow r _ :: rest => groupWritesFirst (r :: seen) rest
  | seen, ApplyEvent.warnNoRepo _ :: rest => groupWritesFirst seen rest

/-! ## Minimal token-diff mode of the search-and-replace feature

`align_tokens` (`src/content/search_replace.py` lines 54-77)
post-processes `SequenceMatcher.get_opcodes()`; the matcher itself is an
external library routine, modelled by an arbitrary opcode list (tag and
the two index ranges), so the theorems below hold for every alignment it
could produce.  `process_file`'s minimal-diff application loop
(lines 175-186) walks the emitted operations over the file text. -/

inductive DiffTag where
  | equalTag
  | replaceTag
  | deleteTag
  | insertTag
deriving DecidableEq

/-- One `(tag, i1, i2, j1, j2)` entry of `get_opcodes()`. -/
structure Opcode where
  tag : DiffTag
  i1 : Nat
  i2 : Nat
  j1 : Nat
  j2 : Nat

/-- One operation emitted by `align_tokens`: `("equal", tok)`,
`("replace", old, new)` with strings for equal-length runs and with
whole sub-run lists otherwise, `("delete", tok)` or `("insert", tok)`. -/
inductive TokOp where
  | equalOp (t : String)
  | replaceOp (o n : String)
  | replaceRunOp (o n : List String)
  | deleteOp (t : String)
  | insertOp (t : String)
deriving DecidableEq

/-- Python list slicing `l[i:j]`. -/
def pySlice (l : List String) (i j : Nat) : List String :=
  (l.take j).drop i

/-- The per-opcode emission of `align_tokens`
(`src/content/search_replace.py` lines 60-75). -/
def emitOps (old new : List String) (oc : Opcode) : List TokOp :=
  match oc.tag with
  | .equalTag => (pySlice old oc.i1 oc.i2).map TokOp.equalOp
  | .replaceTag =>
    if (pySlice old oc.i1 oc.i2).length = (pySlice new oc.j1 oc.j2).length then
      ((pySlice old oc.i1 oc.i2).zip (pySlice new oc.j1 oc.j2)).map
        (fun p => TokOp.replaceOp p.1 p.2)
    else
      [TokOp.replaceRunOp (pySlice old oc.i1 oc.i2) (pySlice new oc.j1 oc.j2)]
  | .deleteTag => (pySlice old oc.i1 oc.i2).map TokOp.deleteOp
  | .insertTag => (pySlice new oc.j1 oc.j2).map TokOp.insertOp

/-- `align_tokens` (`src/content/search_replace.py` lines 54-77),
parameterised by the opcode list `SequenceMatcher.get_opcodes()`
returned. -/
def align_tokens (old new : List String) (opcodes : List Opcode) : List TokOp :=
  opcodes.flatMap (emitOps old new)

/-- Python `content.find(needle)` from position `i` (the returned index
is absolute). -/
def strFindGo (needle : List Char) : List Char → Nat → Option Nat
  | [], i => if litPrefix needle [] then some i else none
  | s@(_ :: cs), i => if litPrefix needle s then some i else strFindGo needle cs (i + 1)

/-- The application loop of `process_file`'s minimal token-diff mode
(`src/content/search_replace.py` lines 178-184): only ops whose tag is
`"replace"` act; a string-pair replace splices `new` over the first
occurrence of `old` *in the original content* (positions are applied to
the running `modified` list); a run-pair replace calls
`content.find(list)`, a `TypeError` in Python, modelled as `none`;
`equal`, `delete` and `insert` ops do nothing. -/
def applyTokOpsGo (content : List Char) (modified : List Char) :
    List TokOp → Option (List Char)
  | [] => some modified
  | op :: rest =>
    match op with
    | .replaceOp o n =>
      (match strFindGo o.toList content 0 with
       | some pos =>
         applyTokOpsGo content
           (modified.take pos ++ n.toList ++ modified.drop (pos + o.toList.length)) rest
       | none => applyTokOpsGo content modified rest)
    | .replaceRunOp _ _ => none
    | .equalOp _ => applyTokOpsGo content modified rest
    | .deleteOp _ => applyTokOpsGo content modified rest
    | .insertOp _ => applyTokOpsGo content modified rest

/-- Whether an emitted op is acted upon by the application loop. -/
def isReplaceLike : TokOp → Bool
  | .replaceOp _ _ => true
  | .replaceRunOp _ _ => true
  | _ => false

/-- A fully successful external world for the C8 witness: no branch
collisions, every git command exits 0, and `gh pr create` prints a PR
URL. -/
def demoEnv : GitEnv :=
  ⟨fun _ => false,
   fun _ => ⟨0, "", ""⟩,
   fun _ => ⟨0, "", ""⟩,
   ⟨0, "", ""⟩,
   fun _ => ⟨0, "", ""⟩,
   ⟨0, "https://example.com/pr/1\n", ""⟩⟩

/-! ## Theorems -/

example : parse_version ("1.2.3".toList) = (1, 2, 3) := by decide

example : parse_version ("2.13".toList) = (2, 13, 0) := by decide

example : parse_version ("1.2.3-RC1".toList) = (1, 2, 3) := by decide

example : parse_version ("1.2rc.x".toList) = (1, 2, 0) := by decide

example : parse_version ("1.2.3.4".toList) = (1, 2, 3) := by decide

example : parse_version_u ("1.2.3".toList) = some (1, 2, 3) := by decide

theorem litPrefix_eq_append (l : List Char) :
    ∀ s : List Char, litPrefix l s = true → s = l ++ s.drop l.length := by
  induction l with
  | nil => intro s _; simp
  | cons a as ih =>
    intro s h
    cases s with
    | nil => simp [litPrefix] at h
    | cons b bs =>
      simp only [litPrefix, Bool.and_eq_true, decide_eq_true_eq] at h
      obtain ⟨rfl, h2⟩ := h
      simpa using ih bs h2

theorem eatLit_eq {lit s c r : List Char} (h : eatLit lit s = some (c, r)) :
    c = lit ∧ s = c ++ r := by
  unfold eatLit at h
  split at h
  · simp only [Option.some.injEq, Prod.mk.injEq] at h
    obtain ⟨rfl, rfl⟩ := h
    exact ⟨rfl, litPrefix_eq_append lit s (by assumption)⟩
  · exact absurd h (by simp)

theorem eatSpaces_eq (s : List Char) : s = (eatSpaces s).1 ++ (eatSpaces s).2 :=
  (List.takeWhile_append_dropWhile (p := pyIsSpace) (l := s)).symm

theorem eatSpaces1_eq {s c r : List Char} (h : eatSpaces1 s = some (c, r)) :
    s = c ++ r := by
  unfold eatSpaces1 at h
  split at h
  · exact absurd h (by simp)
  · simp only [Option.some.injEq, Prod.mk.injEq] at h
    obtain ⟨rfl, rfl⟩ := h
    exact (List.takeWhile_append_dropWhile (p := pyIsSpace) (l := s)).symm

theorem eatChar_eq {ch : Char} {s c r : List Char} (h : eatChar ch s = some (c, r)) :
    c = [ch] ∧ s = c ++ r := by
  unfold eatChar at h
  split at h
  · exact absurd h (by simp)
  · rename_i c0 cs
    split at h
    · rename_i hc
      simp only [Option.some.injEq, Prod.mk.injEq] at h
      obtain ⟨rfl, rfl⟩ := h
      simp [hc]
    · exact absurd h (by simp)

theorem eatPcts_eq {s c r : List Char} (h : eatPcts s = some (c, r)) :
    s = c ++ r := by
  unfold eatPcts at h
  split at h <;>
    first
      | (simp only [Option.some.injEq, Prod.mk.injEq] at h;
         obtain ⟨rfl, rfl⟩ := h; simp)
      | exact absurd h (by simp)

theorem readQuoted_eq {s v r : List Char} (h : readQuoted s = some (v, r)) :
    s = quoteTok v ++ r ∧ v ≠ [] := by
  unfold readQuoted at h
  split at h
  · rename_i t
    split at h
    · exact absurd h (by simp)
    · rename_i hne
      split at h
      · rename_i r0 hr0
        simp only [Option.some.injEq, Prod.mk.injEq] at h
        obtain ⟨rfl, rfl⟩ := h
        constructor
        · rw [quoteTok]
          simp only [List.cons_append, List.append_assoc, List.singleton_append]
          congr 1
          conv_lhs =>
            rw [← List.takeWhile_append_dropWhile (p := fun c => decide (c ≠ '"')) (l := t)]
          rw [hr0]
          simp
        · intro hv
          exact hne hv
      · exact absurd h (by simp)
  · exact absurd h (by simp)

theorem matchGAPre_eq {g a s pre r : List Char}
    (h : matchGAPre g a s = some (pre, r)) : s = pre ++ r ∧ pre ≠ [] := by
  unfold matchGAPre at h
  split at h
  · exact absurd h (by simp)
  · rename_i c1 s1 h1
    split at h
    · exact absurd h (by simp)
    · rename_i c2 s3 h2
      split at h
      · exact absurd h (by simp)
      · rename_i c3 s5 h3
        split at h
        · exact absurd h (by simp)
        · rename_i c4 s7 h4
          simp only [Option.some.injEq, Prod.mk.injEq] at h
          obtain ⟨rfl, rfl⟩ := h
          obtain ⟨hc1, hs1⟩ := eatLit_eq h1
          have hw1 := eatSpaces_eq s1
          have hp := eatPcts_eq h2
          obtain ⟨hc3, hs4⟩ := eatLit_eq h3
          have hw3 := eatSpaces_eq s3
          have hw5 := eatSpaces_eq s5
          obtain ⟨hc4, hs6⟩ := eatChar_eq h4
          have hw7 := eatSpaces_eq s7
          constructor
          · conv_lhs => rw [hs1, hw1, hp, hw3, hs4, hw5, hs6, hw7]
            simp [List.append_assoc]
          · subst hc1
            simp [quoteTok]

theorem matchGAPre_rest_length {g a s pre r : List Char}
    (h : matchGAPre g a s = some (pre, r)) : r.length < s.length := by
  obtain ⟨hs, hne⟩ := matchGAPre_eq h
  rw [hs, List.length_append]
  cases pre with
  | nil => exact absurd rfl hne
  | cons x xs => simp

theorem matchAt_eq {g a s pre ver rest : List Char}
    (h : matchAt g a s = some (pre, ver, rest)) :
    s = pre ++ quoteTok ver ++ rest ∧ pre ≠ [] := by
  unfold matchAt at h
  split at h
  · exact absurd h (by simp)
  · rename_i pre0 r0 h1
    split at h
    · exact absurd h (by simp)
    · rename_i ver0 rest0 h2
      simp only [Option.some.injEq, Prod.mk.injEq] at h
      obtain ⟨rfl, rfl, rfl⟩ := h
      obtain ⟨hs, hne⟩ := matchGAPre_eq h1
      obtain ⟨hr, -⟩ := readQuoted_eq h2
      exact ⟨by rw [hs, hr, List.append_assoc], hne⟩

theorem matchAt_rest_length {g a s pre ver rest : List Char}
    (h : matchAt g a s = some (pre, ver, rest)) : rest.length < s.length := by
  obtain ⟨hs, hne⟩ := matchAt_eq h
  rw [hs]
  simp only [List.length_append, quoteTok, List.length_cons]
  omega

theorem dropWhile_length_le (p : Char → Bool) (l : List Char) :
    (l.dropWhile p).length ≤ l.length := by
  induction l with
  | nil => simp
  | cons c cs ih =>
    rw [List.dropWhile_cons]
    split
    · exact Nat.le_succ_of_le ih
    · simp

theorem matchDepAt_rest_length {g a s name rest : List Char}
    (h : matchDepAt g a s = some (name, rest)) : rest.length < s.length := by
  unfold matchDepAt at h
  split at h
  · exact absurd h (by simp)
  · rename_i pre r h1
    split at h
    · exact absurd h (by simp)
    · rename_i c t
      split at h
      · exact absurd h (by simp)
      · split at h
        · simp only [Option.some.injEq, Prod.mk.injEq] at h
          obtain ⟨rfl, rfl⟩ := h
          obtain ⟨hs, hne⟩ := matchGAPre_eq h1
          have hd : (t.dropWhile pyIsWordChar).length ≤ t.length :=
            dropWhile_length_le pyIsWordChar t
          rw [hs, List.length_append]
          cases pre with
          | nil => exact absurd rfl hne
          | cons x xs => simp; omega
        · exact absurd h (by simp)

theorem findIterFuel_reconstruct (g a : List Char) (fuel : Nat) :
    ∀ s : List Char,
      ((findIterFuel g a fuel s).1.map pieceText).flatten
        ++ (findIterFuel g a fuel s).2 = s := by
  induction fuel with
  | zero => intro s; simp [findIterFuel]
  | succ fuel ih =>
    intro s
    cases s with
    | nil => simp [findIterFuel]
    | cons c cs =>
      rw [findIterFuel]
      cases hm : matchAt g a (c :: cs) with
      | some m =>
        obtain ⟨pre, ver, rest⟩ := m
        obtain ⟨hs, -⟩ := matchAt_eq hm
        simp only
        conv_rhs => rw [hs]
        simp only [List.map_cons, List.flatten_cons, pieceText, List.append_assoc,
          List.nil_append]
        rw [ih rest]
      | none =>
        simp only
        cases hrec : findIterFuel g a fuel cs with
        | mk ms t =>
          have ihcs := ih cs
          rw [hrec] at ihcs
          cases ms with
          | nil =>
            simp only at ihcs ⊢
            simp only [List.map_nil, List.flatten_nil, List.nil_append] at ihcs ⊢
            rw [ihcs]
          | cons m ms' =>
            obtain ⟨gap, pre, ver⟩ := m
            simp only [List.map_cons, List.flatten_cons, pieceText] at ihcs ⊢
            simp only [List.cons_append]
            rw [← ihcs]

theorem findIter_reconstruct (g a s : List Char) :
    ((findIter g a s).1.map pieceText).flatten ++ (findIter g a s).2 = s :=
  findIterFuel_reconstruct g a s.length s

example :
    lossless_upgrade ("val x = \"org.x\" %% \"y\"  % \"1.2.3\"".toList)
      ("org.x".toList) ("y".toList) ("1.3.0".toList) false false
    = ("val x = \"org.x\" %% \"y\"  % \"1.3.0\"".toList, true) := by decide

example :
    lossless_upgrade ("\"org.x\" % \"y\" % \"1.2.3\"".toList)
      ("org.x".toList) ("y".toList) ("1.0.0".toList) true false
    = ("\"org.x\" % \"y\" % \"1.2.3\"".toList, false) := by decide

example :
    lossless_upgrade ("\"org.x\" % \"y\" % \"1.2.3\"".toList)
      ("org.x".toList) ("y".toList) ("2.0.0".toList) false true
    = ("\"org.x\" % \"y\" % \"1.2.3\"".toList, false) := by decide

theorem matchPiece_skip {newv : List Char} {th sm : Bool}
    {m : List Char × List Char × List Char}
    (h : gateSkipSpec th sm m.2.2 newv = true) :
    matchPiece newv th sm m = (pieceText m, false) := by
  unfold matchPiece pieceText
  unfold gateSkipSpec at h
  simp only [Bool.or_eq_true, Bool.and_eq_true] at h
  rcases h with ⟨h1, h2⟩ | ⟨h1, h2⟩
  · simp [h1, h2]
  · by_cases hth : (th && versionGt (parse_version m.2.2) (parse_version newv)) = true
    · simp [hth]
    · simp only [Bool.not_eq_true] at hth
      simp [hth, h1, h2, is_major_bump]

theorem matchPiece_rewrite {newv : List Char} {th sm : Bool}
    {m : List Char × List Char × List Char}
    (h : gateSkipSpec th sm m.2.2 newv = false) :
    matchPiece newv th sm m = (m.1 ++ m.2.1 ++ quoteTok newv, true) := by
  unfold matchPiece
  unfold gateSkipSpec at h
  simp only [Bool.or_eq_false_iff, Bool.and_eq_false_iff] at h
  obtain ⟨h1, h2⟩ := h
  have hg1 : (th && versionGt (parse_version m.2.2) (parse_version newv)) = false := by
    rcases h1 with h | h <;> simp [h]
  have hg2 : (sm && is_major_bump m.2.2 newv) = false := by
    rcases h2 with h | h <;> simp [h, is_major_bump]
  simp [hg1, hg2]

theorem matchPiece_fst (newv : List Char) (th sm : Bool)
    (m : List Char × List Char × List Char) :
    (matchPiece newv th sm m).1
      = if gateSkipSpec th sm m.2.2 newv then pieceText m
        else m.1 ++ m.2.1 ++ quoteTok newv := by
  cases hg : gateSkipSpec th sm m.2.2 newv
  · rw [matchPiece_rewrite hg]; simp
  · rw [matchPiece_skip hg]; simp

theorem matchPiece_snd (newv : List Char) (th sm : Bool)
    (m : List Char × List Char × List Char) :
    (matchPiece newv th sm m).2 = !gateSkipSpec th sm m.2.2 newv := by
  cases hg : gateSkipSpec th sm m.2.2 newv
  · rw [matchPiece_rewrite hg]; simp
  · rw [matchPiece_skip hg]; simp

theorem lossless_upgrade_eq_spec (original g a newv : List Char) (th sm : Bool) :
    lossless_upgrade original g a newv th sm
      = dependencyRewriterSpec original g a newv th sm := by
  have hany : ∀ l : List (List Char × List Char × List Char),
      (l.map (matchPiece newv th sm)).any (fun p => p.2)
        = l.any (fun m => !gateSkipSpec th sm m.2.2 newv) := by
    intro l
    induction l with
    | nil => rfl
    | cons x xs ih => simp [List.any_cons, ih, matchPiece_snd]
  have hmapfst : ∀ l : List (List Char × List Char × List Char),
      ((l.map (matchPiece newv th sm)).map (fun p => p.1))
        = l.map (fun m =>
            if gateSkipSpec th sm m.2.2 newv then pieceText m
            else m.1 ++ m.2.1 ++ quoteTok newv) := by
    intro l
    induction l with
    | nil => rfl
    | cons x xs ih => simp only [List.map_cons, ih, matchPiece_fst]
  unfold lossless_upgrade dependencyRewriterSpec
  simp only [Prod.mk.injEq]
  refine ⟨?_, hany _⟩
  rw [hany, hmapfst]
  cases hB : (findIter g a original).1.any (fun m => !gateSkipSpec th sm m.2.2 newv) with
  | true => simp
  | false =>
    have hcond : ¬(false = true) := by simp
    rw [if_neg hcond]
    have hall := List.any_eq_false.mp hB
    have : ((findIter g a original).1.map (fun m =>
        if gateSkipSpec th sm m.2.2 newv then pieceText m
        else m.1 ++ m.2.1 ++ quoteTok newv))
        = (findIter g a original).1.map pieceText := by
      apply List.map_congr_left
      intro m hm
      have h2 := hall m hm
      have hg : gateSkipSpec th sm m.2.2 newv = true := by
        revert h2
        cases gateSkipSpec th sm m.2.2 newv <;> simp
      rw [if_pos hg]
    rw [this, findIter_reconstruct]

theorem eatOptKw_eq (kw s : List Char) :
    s = (eatOptKw kw s).1 ++ (eatOptKw kw s).2 := by
  unfold eatOptKw
  split
  · simp
  · rename_i c r h1
    split
    · simp
    · obtain ⟨rfl, hs⟩ := eatLit_eq h1
      rw [List.append_assoc]
      rw [hs]
      exact congrArg _ (List.takeWhile_append_dropWhile (p := pyIsSpace) (l := r)).symm

theorem eatValDef_eq {s c r : List Char} (h : eatValDef s = some (c, r)) :
    s = c ++ r := by
  unfold eatValDef at h
  split at h
  · rename_i c0 r0 h1
    simp only [Option.some.injEq, Prod.mk.injEq] at h
    obtain ⟨rfl, rfl⟩ := h
    exact (eatLit_eq h1).2
  · exact (eatLit_eq h).2

theorem eatTypeAsc_eq {s c r : List Char} (h : eatTypeAsc s = some (c, r)) :
    s = c ++ r := by
  unfold eatTypeAsc at h
  split at h
  · rename_i t
    split at h
    · exact absurd h (by simp)
    · rename_i c2 t2 h1
      split at h
      · exact absurd h (by simp)
      · rename_i u c4 t4 h2
        simp only [Option.some.injEq, Prod.mk.injEq] at h
        obtain ⟨rfl, rfl⟩ := h
        obtain ⟨rfl, ht⟩ := eatLit_eq h1
        obtain ⟨rfl, ht2⟩ := eatChar_eq h2
        simp only [List.cons_append, List.cons.injEq, true_and, List.append_assoc]
        conv_lhs => rw [← List.takeWhile_append_dropWhile (p := pyIsSpace) (l := t)]
        rw [ht]
        congr 1
        congr 1
        conv_lhs => rw [← List.takeWhile_append_dropWhile (p := pyIsSpace) (l := t2)]
        rw [ht2]
        simp
  · rename_i t
    simp only [Option.some.injEq, Prod.mk.injEq] at h
    obtain ⟨rfl, rfl⟩ := h
    simp
  · exact absurd h (by simp)

theorem matchValAt_eq {name s pre value rest : List Char}
    (h : matchValAt name s = some (pre, value, rest)) :
    s = pre ++ quoteTok value ++ rest := by
  unfold matchValAt at h
  split at h
  · exact absurd h (by simp)
  · rename_i cVD s3 h1
    split at h
    · exact absurd h (by simp)
    · rename_i sp1 s4 h2
      split at h
      · exact absurd h (by simp)
      · rename_i cN s5 h3
        split at h
        · exact absurd h (by simp)
        · rename_i cT s7 h4
          split at h
          · exact absurd h (by simp)
          · rename_i value0 rest0 h5
            simp only [Option.some.injEq, Prod.mk.injEq] at h
            obtain ⟨rfl, rfl, rfl⟩ := h
            have e1 := eatOptKw_eq ("private".toList) s
            have e2 := eatOptKw_eq ("lazy".toList) (eatOptKw ("private".toList) s).2
            have e3 := eatValDef_eq h1
            have e4 := eatSpaces1_eq h2
            obtain ⟨rfl, e5⟩ := eatLit_eq h3
            have e6 := eatTypeAsc_eq h4
            obtain ⟨e7, -⟩ := readQuoted_eq h5
            conv_lhs => rw [e1, e2, e3, e4, e5]
            conv_lhs =>
              rw [← List.takeWhile_append_dropWhile (p := pyIsSpace) (l := s5), e6]
            conv_lhs =>
              rw [← List.takeWhile_append_dropWhile (p := pyIsSpace) (l := s7), e7]
            simp [List.append_assoc]

theorem valSearchGo_nil (name : List Char) : valSearchGo name [] = none := rfl

theorem valSearchGo_cons (name : List Char) (c : Char) (cs : List Char) :
    valSearchGo name (c :: cs) =
      (match matchValAt name (c :: cs) with
       | some (pre, value, rest) => some ([], pre, value, rest)
       | none =>
         match valSearchGo name cs with
         | some (b, pre, value, rest) => some (c :: b, pre, value, rest)
         | none => none) := rfl

theorem valSearchGo_eq {name s before pre value rest : List Char}
    (h : valSearchGo name s = some (before, pre, value, rest)) :
    s = before ++ pre ++ quoteTok value ++ rest := by
  induction s generalizing before with
  | nil =>
    rw [valSearchGo_nil] at h
    exact absurd h (by simp)
  | cons c cs ih =>
    rw [valSearchGo_cons] at h
    split at h
    · rename_i pre0 value0 rest0 hm
      simp only [Option.some.injEq, Prod.mk.injEq] at h
      obtain ⟨rfl, rfl, rfl, rfl⟩ := h
      simpa using matchValAt_eq hm
    · split at h
      · rename_i b0 pre0 value0 rest0 hrec
        simp only [Option.some.injEq, Prod.mk.injEq] at h
        obtain ⟨rfl, rfl, rfl, rfl⟩ := h
        have := ih hrec
        simp [this]
      · exact absurd h (by simp)

example :
    lossless_upgrade_variable_refs
      ("\"uk.gov\" %% \"mongo\" % mongoVersion\nval mongoVersion = \"1.0.0\"\n".toList)
      ("uk.gov".toList) ("mongo".toList) ("1.1.0".toList) false false
    = ("\"uk.gov\" %% \"mongo\" % mongoVersion\nval mongoVersion = \"1.1.0\"\n".toList,
       true, []) := by decide

example :
    lossless_upgrade_variable_refs
      ("\"uk.gov\" % \"mongo\" % mongoVersion\n".toList)
      ("uk.gov".toList) ("mongo".toList) ("1.1.0".toList) false false
    = ("\"uk.gov\" % \"mongo\" % mongoVersion\n".toList, false,
       [warnMsg ("mongoVersion".toList) ("uk.gov".toList) ("mongo".toList)]) := by decide

theorem varStep_eq_spec (g a newv : List Char) (th sm : Bool)
    (st : List Char × Bool × List (List Char)) (v : List Char) :
    varStep g a newv th sm st v = varStepSpec g a newv th sm st v := by
  unfold varStep varStepSpec
  cases hval : valSearchGo v st.1 with
  | none => simp only [hval]
  | some r =>
    obtain ⟨before, pre, oldv, rest⟩ := r
    simp only [hval]
    cases hg : gateSkipSpec th sm oldv newv
    · unfold gateSkipSpec at hg
      simp only [Bool.or_eq_false_iff, Bool.and_eq_false_iff] at hg
      obtain ⟨h1, h2⟩ := hg
      have hg1 : (th && versionGt (parse_version oldv) (parse_version newv)) = false := by
        rcases h1 with h | h <;> simp [h]
      have hg2 : (sm && is_major_bump oldv newv) = false := by
        rcases h2 with h | h <;> simp [h, is_major_bump]
      simp [hg1, hg2]
    · unfold gateSkipSpec at hg
      simp only [Bool.or_eq_true, Bool.and_eq_true] at hg
      rcases hg with ⟨h1, h2⟩ | ⟨h1, h2⟩
      · simp [h1, h2]
      · by_cases hth : (th && versionGt (parse_version oldv) (parse_version newv)) = true
        · simp [hth]
        · simp only [Bool.not_eq_true] at hth
          simp [hth, h1, h2, is_major_bump]

theorem variable_refs_eq_spec (original g a newv : List Char) (th sm : Bool) :
    lossless_upgrade_variable_refs original g a newv th sm
      = variableRewriterSpec original g a newv th sm := by
  unfold lossless_upgrade_variable_refs varRefsGivenVars variableRewriterSpec
  split
  · rfl
  · apply List.foldl_ext
    intro st v _
    exact varStep_eq_spec g a newv th sm st v

theorem versionGt_self (t : Nat × Nat × Nat) : versionGt t t = false := by
  rcases t with ⟨a1, a2, a3⟩
  simp [versionGt]

theorem gateSkipSpec_self (th sm : Bool) (v : List Char) :
    gateSkipSpec th sm v v = false := by
  unfold gateSkipSpec
  simp [versionGt_self]

/-- Behaviour of the per-identifier loop when every binding that can be
found in `original` already binds the target version: the text never
changes (each rewrite replaces a literal by an identical one), the
warnings are exactly those of the identifiers without a binding, and
`upgraded_any` becomes true exactly when some identifier has a
binding. -/
theorem varFold_same_version (g a v : List Char) (th sm : Bool) (original : List Char) :
    ∀ (vars : List (List Char)) (b : Bool) (ws : List (List Char)),
      (∀ name ∈ vars, ∀ bef pre val rest,
          valSearchGo name original = some (bef, pre, val, rest) → val = v) →
      vars.foldl (varStep g a v th sm) (original, b, ws)
        = (original,
           b || vars.any (fun n => (valSearchGo n original).isSome),
           ws ++ (vars.filter (fun n => (valSearchGo n original).isNone)).map
                   (fun n => warnMsg n g a)) := by
  intro vars
  induction vars with
  | nil => intro b ws _; simp
  | cons n rest ih =>
    intro b ws hv
    rw [List.foldl_cons]
    have hstep : varStep g a v th sm (original, b, ws) n =
        match valSearchGo n original with
        | none => (original, b, ws ++ [warnMsg n g a])
        | some _ => (original, true, ws) := by
      unfold varStep
      cases hval : valSearchGo n original with
      | none => simp
      | some r =>
        obtain ⟨bef, pre, val, rst⟩ := r
        have hval_v : val = v := hv n (by simp) bef pre val rst hval
        subst hval_v
        have hg1 : (th && versionGt (parse_version val) (parse_version val)) = false := by
          simp [versionGt_self]
        have hg2 : (sm && is_major_bump val val) = false := by
          simp [is_major_bump]
        simp only [hg1, hg2, Bool.false_eq_true, if_false]
        have := valSearchGo_eq hval
        rw [← this]
    cases hval : valSearchGo n original with
    | none =>
      rw [hstep]
      simp only [hval]
      rw [ih b (ws ++ [warnMsg n g a]) (fun m hm => hv m (by simp [hm]))]
      simp [hval, List.filter_cons, List.any_cons]
    | some r =>
      rw [hstep]
      simp only [hval]
      rw [ih true ws (fun m hm => hv m (by simp [hm]))]
      simp [hval, List.filter_cons, List.any_cons]

theorem any_const_true (l : List (List Char × List Char × List Char)) :
    l.any (fun _ => true) = !l.isEmpty := by
  cases l <;> simp

/-- Inline mode on a text whose every matched version literal is already
the target: the joined result is the original text and `upgraded_any`
holds exactly when there is a match. -/
theorem lossless_upgrade_all_same (original g a v : List Char) (th sm : Bool)
    (h : ∀ m ∈ (findIter g a original).1, m.2.2 = v) :
    lossless_upgrade original g a v th sm
      = (original, !(findIter g a original).1.isEmpty) := by
  rw [lossless_upgrade_eq_spec]
  unfold dependencyRewriterSpec
  simp only [Prod.mk.injEq]
  constructor
  · have hmap : ((findIter g a original).1.map (fun m =>
        if gateSkipSpec th sm m.2.2 v then pieceText m
        else m.1 ++ m.2.1 ++ quoteTok v))
        = (findIter g a original).1.map pieceText := by
      apply List.map_congr_left
      intro m hm
      have hv := h m hm
      rw [hv, gateSkipSpec_self]
      simp only [Bool.false_eq_true, if_false, pieceText, hv]
    rw [hmap, findIter_reconstruct]
  · have hgen : ∀ l : List (List Char × List Char × List Char),
        (∀ m ∈ l, m.2.2 = v) →
        l.any (fun m => !gateSkipSpec th sm m.2.2 v) = l.any (fun _ => true) := by
      intro l
      induction l with
      | nil => intro _; rfl
      | cons x xs ih =>
        intro hl
        simp only [List.any_cons]
        rw [hl x (by simp), gateSkipSpec_self, ih (fun m hm => hl m (by simp [hm]))]
        rfl
    rw [hgen _ h, any_const_true]

/-- Inline mode on a text whose every match is skipped by a policy gate:
nothing is rewritten and the original text is returned as-is. -/
theorem lossless_upgrade_all_skipped (original g a v : List Char) (th sm : Bool)
    (h : ∀ m ∈ (findIter g a original).1, gateSkipSpec th sm m.2.2 v = true) :
    lossless_upgrade original g a v th sm = (original, false) := by
  rw [lossless_upgrade_eq_spec]
  unfold dependencyRewriterSpec
  simp only [Prod.mk.injEq]
  constructor
  · have hmap : ((findIter g a original).1.map (fun m =>
        if gateSkipSpec th sm m.2.2 v then pieceText m
        else m.1 ++ m.2.1 ++ quoteTok v))
        = (findIter g a original).1.map pieceText := by
      apply List.map_congr_left
      intro m hm
      rw [if_pos (h m hm)]
    rw [hmap, findIter_reconstruct]
  · rw [List.any_eq_false]
    intro m hm
    rw [h m hm]
    simp

example :
    upgradeFileStep ("\"g\" % \"a\" % \"g\" % \"a\" % x\nval x = \"0.1\"\n".toList)
      ("g".toList) ("a".toList) ("1.0".toList) false false
    = ("\"g\" % \"a\" % \"1.0\" % \"a\" % x\nval x = \"0.1\"\n".toList, true, []) := by
  decide

example :
    upgradeFileStepSpecScan ("\"g\" % \"a\" % \"g\" % \"a\" % x\nval x = \"0.1\"\n".toList)
      ("g".toList) ("a".toList) ("1.0".toList) false false
    = ("\"g\" % \"a\" % \"1.0\" % \"a\" % x\nval x = \"1.0\"\n".toList, true, []) := by
  decide

theorem runPlan_cons (st : GitStep) (c : Int) (m : String)
    (rest : List (GitStep × Int × String)) :
    runPlan ((st, c, m) :: rest)
      = if c ≠ 0 then (some m, [st])
        else match runPlan rest with | (e, steps) => (e, st :: steps) := rfl

theorem stageFiles_cons (env : GitEnv) (f : String) (rest : List String) :
    stageFiles env (f :: rest)
      = if (env.add f).code ≠ 0 then
          (some ("Failed to stage '" ++ f ++ "': " ++ (env.add f).err), [.addStep f])
        else match stageFiles env rest with | (e, steps) => (e, .addStep f :: steps) := rfl

theorem runPlan_append_adds (env : GitEnv) (tail3 : List (GitStep × Int × String)) :
    ∀ files : List String,
      runPlan (files.map (fun f => (GitStep.addStep f, (env.add f).code,
          "Failed to stage '" ++ f ++ "': " ++ (env.add f).err)) ++ tail3)
        = match stageFiles env files with
          | (some m, steps) => (some m, steps)
          | (none, steps) =>
            match runPlan tail3 with
            | (e, s2) => (e, steps ++ s2) := by
  intro files
  induction files with
  | nil =>
    cases h3 : runPlan tail3 with
    | mk e s2 => simp [stageFiles, h3]
  | cons f fs ih =>
    simp only [List.map_cons, List.cons_append]
    rw [runPlan_cons, stageFiles_cons]
    by_cases hc : (env.add f).code ≠ 0
    · simp [hc]
    · simp only [hc, if_false]
      rw [ih]
      cases hst : stageFiles env fs with
      | mk e steps =>
        cases e with
        | some m => simp
        | none =>
          cases runPlan tail3 with
          | mk e2 s2 => simp

theorem git_workflow_eq_spec (env : GitEnv) (repo_root : String)
    (changed_files : List String) (libs : List LibSpec) (fuel : Nat) :
    git_workflow env repo_root changed_files libs fuel
      = gitWorkflowSpec env repo_root changed_files libs fuel := by
  unfold git_workflow gitWorkflowSpec
  cases hbr : make_unique_branch_name env.branchExists (build_branch_name libs) fuel with
  | none => rfl
  | some branch =>
    simp only
    unfold workflowPlan
    rw [runPlan_cons]
    by_cases hc1 : (env.checkout branch).code ≠ 0
    · simp [hc1]
    · simp only [hc1, if_true, if_false]
      rw [runPlan_append_adds]
      cases hst : stageFiles env changed_files with
      | mk e steps =>
        cases e with
        | some m => simp
        | none =>
          simp only
          rw [runPlan_cons]
          by_cases hc2 : env.commit.code ≠ 0
          · simp [hc2]
          · simp only [hc2, if_false]
            rw [runPlan_cons]
            by_cases hc3 : (env.push branch).code ≠ 0
            · simp [hc3]
            · simp only [hc3, if_false]
              rw [runPlan_cons]
              by_cases hc4 : env.pr.code ≠ 0
              · simp [hc4]
              · simp [hc4, runPlan]

theorem uniqueLoop_least (ex : String → Bool) (base : String) :
    ∀ (fuel counter k : Nat), counter ≤ k →
      ex (base ++ "-" ++ toString k) = false →
      (∀ j, counter ≤ j → j < k → ex (base ++ "-" ++ toString j) = true) →
      k - counter < fuel →
      uniqueLoop ex base counter fuel = some (base ++ "-" ++ toString k) := by
  intro fuel
  induction fuel with
  | zero => intro counter k _ _ _ hlt; omega
  | succ fuel ih =>
    intro counter k hck hk hall hlt
    rw [uniqueLoop]
    by_cases heq : counter = k
    · subst heq
      simp [hk]
    · have hcilt : counter < k := by omega
      have hex : ex (base ++ "-" ++ toString counter) = true :=
        hall counter (Nat.le_refl counter) hcilt
      simp only [hex, Bool.not_true, Bool.false_eq_true, if_false]
      exact ih (counter + 1) k (by omega) hk
        (fun j h1 h2 => hall j (by omega) h2) (by omega)

theorem writeEvents_append (tr1 tr2 : List ApplyEvent) :
    writeEvents (tr1 ++ tr2) = writeEvents tr1 ++ writeEvents tr2 := by
  induction tr1 with
  | nil => rfl
  | cons e rest ih =>
    cases e <;> simp [writeEvents, ih]

theorem writeEvents_map_writeFile (root : Option String) (paths : List String) :
    writeEvents (paths.map (ApplyEvent.writeFile root)) = paths.map (fun p => (root, p)) := by
  induction paths with
  | nil => rfl
  | cons p rest ih => simp [writeEvents, ih]

/-- Every group's files appear among the write events, in order,
independently of any workflow outcome. -/
theorem applyPhase_writes (oracle : String → Bool) :
    ∀ groups : List (Option String × List String),
      writeEvents (applyPhase oracle groups)
        = groups.flatMap (fun grp => grp.2.map (fun p => (grp.1, p))) := by
  intro groups
  induction groups with
  | nil => rfl
  | cons grp rest ih =>
    obtain ⟨root, paths⟩ := grp
    show writeEvents (paths.map (ApplyEvent.writeFile root) ++ _ ++ applyPhase oracle rest) = _
    rw [writeEvents_append, writeEvents_append, writeEvents_map_writeFile]
    cases root <;> simp [writeEvents, ih]

theorem groupWritesFirst_skip_writes (root : Option String) (seen : List String)
    (h : ∀ s ∈ seen, root ≠ some s) :
    ∀ (paths : List String) (tr : List ApplyEvent),
      groupWritesFirst seen (paths.map (ApplyEvent.writeFile root) ++ tr)
        = groupWritesFirst seen tr := by
  intro paths
  induction paths with
  | nil => intro tr; rfl
  | cons p rest ih =>
    intro tr
    cases root with
    | none => simpa [groupWritesFirst] using ih tr
    | some r =>
      have hr : r ∉ seen := fun hmem => (h r hmem) rfl
      simp only [List.map_cons, List.cons_append, groupWritesFirst]
      rw [if_neg hr]
      exact ih tr

/-- In the apply-mode loop each repository's files are all written
before that repository's own workflow runs (provided the groups have
distinct roots, as dict keys do). -/
theorem applyPhase_groupWritesFirst (oracle : String → Bool) :
    ∀ (groups : List (Option String × List String)) (seen : List String),
      (∀ grp ∈ groups, ∀ s ∈ seen, grp.1 ≠ some s) →
      (groups.map Prod.fst).Nodup →
      groupWritesFirst seen (applyPhase oracle groups) = true := by
  intro groups
  induction groups with
  | nil => intro seen _ _; rfl
  | cons grp rest ih =>
    intro seen hseen hnd
    obtain ⟨root, paths⟩ := grp
    show groupWritesFirst seen
      (paths.map (ApplyEvent.writeFile root) ++ _ ++ applyPhase oracle rest) = true
    rw [List.append_assoc]
    rw [groupWritesFirst_skip_writes root seen
      (fun s hs => hseen (root, paths) (by simp) s hs)]
    simp only [List.map_cons, List.nodup_cons] at hnd
    obtain ⟨hnotin, hndrest⟩ := hnd
    cases root with
    | none =>
      show groupWritesFirst seen (ApplyEvent.warnNoRepo _ :: applyPhase oracle rest) = true
      rw [groupWritesFirst]
      exact ih seen (fun g hg s hs => hseen g (by simp [hg]) s hs) hndrest
    | some r =>
      show groupWritesFirst seen
        (ApplyEvent.runWorkflow r (oracle r) :: applyPhase oracle rest) = true
      rw [groupWritesFirst]
      apply ih (r :: seen)
      · intro g hg s hs
        rcases List.mem_cons.mp hs with rfl | hs2
        · intro hgr
          exact hnotin (by rw [← hgr]; exact List.mem_map_of_mem Prod.fst hg)
        · exact hseen g (by simp [hg]) s hs2
      · exact hndrest

theorem applyTokOpsGo_filter (content : List Char) :
    ∀ (ops : List TokOp) (modified : List Char),
      applyTokOpsGo content modified ops
        = applyTokOpsGo content modified (ops.filter isReplaceLike) := by
  intro ops
  induction ops with
  | nil => intro modified; rfl
  | cons op rest ih =>
    intro modified
    cases op with
    | replaceOp o n =>
      simp only [applyTokOpsGo, List.filter_cons, isReplaceLike, if_true]
      cases strFindGo o.toList content 0 with
      | some pos => exact ih _
      | none => exact ih modified
    | replaceRunOp o n =>
      simp only [applyTokOpsGo, List.filter_cons, isReplaceLike, if_true]
    | equalOp t => simpa [applyTokOpsGo, List.filter_cons, isReplaceLike] using ih modified
    | deleteOp t => simpa [applyTokOpsGo, List.filter_cons, isReplaceLike] using ih modified
    | insertOp t => simpa [applyTokOpsGo, List.filter_cons, isReplaceLike] using ih modified

theorem filter_map_const_false {α : Type} (f : α → TokOp)
    (hf : ∀ t, isReplaceLike (f t) = false) :
    ∀ l : List α, (l.map f).filter isReplaceLike = [] := by
  intro l
  induction l with
  | nil => rfl
  | cons x xs ih => simp [List.filter_cons, hf, ih]

theorem emitOps_filter_nonreplace (old new : List String) (oc : Opcode)
    (h : oc.tag ≠ .replaceTag) :
    (emitOps old new oc).filter isReplaceLike = [] := by
  unfold emitOps
  cases htag : oc.tag with
  | equalTag => exact filter_map_const_false TokOp.equalOp (fun t => rfl) _
  | replaceTag => exact absurd htag h
  | deleteTag => exact filter_map_const_false TokOp.deleteOp (fun t => rfl) _
  | insertTag => exact filter_map_const_false TokOp.insertOp (fun t => rfl) _

theorem align_tokens_filter_del_ins (old new : List String) :
    ∀ opcodes : List Opcode,
      (align_tokens old new opcodes).filter isReplaceLike
        = (align_tokens old new
            (opcodes.filter (fun oc =>
              !(oc.tag = .deleteTag || oc.tag = .insertTag)))).filter isReplaceLike := by
  intro opcodes
  induction opcodes with
  | nil => rfl
  | cons oc rest ih =>
    have hcons : align_tokens old new (oc :: rest)
        = emitOps old new oc ++ align_tokens old new rest := by
      simp [align_tokens]
    rw [hcons, List.filter_append, ih, List.filter_cons]
    by_cases hdi : (oc.tag = DiffTag.deleteTag ∨ oc.tag = DiffTag.insertTag)
    · have hcond : (!(oc.tag = DiffTag.deleteTag || oc.tag = DiffTag.insertTag)) = false := by
        rcases hdi with h | h <;> simp [h]
      rw [hcond]
      simp only [if_false, Bool.false_eq_true]
      have hne : oc.tag ≠ .replaceTag := by
        rcases hdi with h | h <;> simp [h]
      rw [emitOps_filter_nonreplace old new oc hne]
      rfl
    · have hcond : (!(oc.tag = DiffTag.deleteTag || oc.tag = DiffTag.insertTag)) = true := by
        push_neg at hdi
        simp [hdi.1, hdi.2]
      rw [hcond]
      simp only [if_true]
      have hcons2 : align_tokens old new (oc :: rest.filter (fun oc =>
          !(oc.tag = DiffTag.deleteTag || oc.tag = DiffTag.insertTag)))
          = emitOps old new oc ++ align_tokens old new (rest.filter (fun oc =>
              !(oc.tag = DiffTag.deleteTag || oc.tag = DiffTag.insertTag))) := by
        simp [align_tokens]
      rw [hcons2, List.filter_append]

theorem align_tokens_no_replace (old new : List String) :
    ∀ opcodes : List Opcode,
      (∀ oc ∈ opcodes, oc.tag ≠ .replaceTag) →
      (align_tokens old new opcodes).filter isReplaceLike = [] := by
  intro opcodes
  induction opcodes with
  | nil => intro _; rfl
  | cons oc rest ih =>
    intro h
    have hcons : align_tokens old new (oc :: rest)
        = emitOps old new oc ++ align_tokens old new rest := by
      simp [align_tokens]
    rw [hcons, List.filter_append,
      emitOps_filter_nonreplace old new oc (h oc (by simp)),
      ih (fun o ho => h o (by simp [ho]))]
    rfl

theorem runPlan_success_iff :
    ∀ plan : List (GitStep × Int × String),
      (runPlan plan).1 = none ↔ ∀ e ∈ plan, e.2.1 = 0 := by
  intro plan
  induction plan with
  | nil => simp [runPlan]
  | cons e rest ih =>
    obtain ⟨st, c, m⟩ := e
    rw [runPlan_cons]
    by_cases hc : c ≠ 0
    · simp [hc]
    · push_neg at hc
      subst hc
      cases hrp : runPlan rest with
      | mk e2 steps =>
        simp only [ne_eq, not_true_eq_false, if_false, decide_not]
        rw [hrp] at ih
        simp only at ih
        constructor
        · intro h2
          intro x hx
          rcases List.mem_cons.mp hx with rfl | hx2
          · rfl
          · exact (ih.mp h2) x hx2
        · intro h2
          exact ih.mpr (fun x hx => h2 x (by simp [hx]))

/-! ## The claims -/

/-- C1 (counterexample): on text already at the target version with a
match present, `lossless_upgrade` reports `changed = true` (the claim
says `changed = false`): the match passes both gates — the existing
triple is not greater than the target and the major component does not
grow — so the literal is rewritten in place to the identical text and
`upgraded_any` is set. -/
theorem C1_counterexample :
    lossless_upgrade ("\"org.x\" % \"y\" % \"1.2.3\"".toList)
      ("org.x".toList) ("y".toList) ("1.2.3".toList) false false
    = ("\"org.x\" % \"y\" % \"1.2.3\"".toList, true) := by decide

/-- C1 (amended): for every file text whose matched version literals
(inline, and the literals bound to every referenced identifier) already
equal the target version `V`, the rewriter returns the text byte-for-
byte unchanged, but reports `changed = true` exactly when a match (resp.
a resolvable identifier) exists, because each such occurrence is
rewritten in place to the identical literal rather than skipped; this
holds for all settings of the two policy flags. -/
theorem C1_same_version_text_unchanged_changed_true
    (original g a v : List Char) (th sm : Bool)
    (hinline : ∀ m ∈ (findIter g a original).1, m.2.2 = v)
    (hvar : ∀ name ∈ dedupFirst (findDeps g a original),
        (valSearchGo name original).all (fun r => r.2.2.1 == v) = true) :
    lossless_upgrade original g a v th sm
      = (original, !(findIter g a original).1.isEmpty)
    ∧ lossless_upgrade_variable_refs original g a v th sm
      = (original,
         (dedupFirst (findDeps g a original)).any (fun n => (valSearchGo n original).isSome),
         ((dedupFirst (findDeps g a original)).filter
            (fun n => (valSearchGo n original).isNone)).map (fun n => warnMsg n g a)) := by
  constructor
  · exact lossless_upgrade_all_same original g a v th sm hinline
  · unfold lossless_upgrade_variable_refs varRefsGivenVars
    by_cases hemp : (dedupFirst (findDeps g a original)).isEmpty
    · rw [if_pos hemp]
      have hnil : dedupFirst (findDeps g a original) = [] := by
        simpa using hemp
      rw [hnil]
      simp
    · rw [if_neg hemp]
      rw [varFold_same_version g a v th sm original _ false []
        (fun name hn bef pre val rest hsome => by
          have hv := hvar name hn
          rw [hsome] at hv
          simpa using hv)]
      simp

/-- C1 (witness): a file with one inline match and one bound variable
reference, both already at `1.2.3`. -/
theorem C1_witness :
    ((findIter ("g".toList) ("a".toList)
        ("\"g\" % \"a\" % \"1.2.3\"\nval libV = \"1.2.3\"\n\"g\" %% \"a\" % libV\n".toList)).1.all
      (fun m => m.2.2 == "1.2.3".toList)) = true
    ∧ lossless_upgrade
        ("\"g\" % \"a\" % \"1.2.3\"\nval libV = \"1.2.3\"\n\"g\" %% \"a\" % libV\n".toList)
        ("g".toList) ("a".toList) ("1.2.3".toList) false true
      = ("\"g\" % \"a\" % \"1.2.3\"\nval libV = \"1.2.3\"\n\"g\" %% \"a\" % libV\n".toList, true)
    ∧ lossless_upgrade_variable_refs
        ("\"g\" % \"a\" % \"1.2.3\"\nval libV = \"1.2.3\"\n\"g\" %% \"a\" % libV\n".toList)
        ("g".toList) ("a".toList) ("1.2.3".toList) false true
      = ("\"g\" % \"a\" % \"1.2.3\"\nval libV = \"1.2.3\"\n\"g\" %% \"a\" % libV\n".toList,
         true, []) := by
  have h := C1_same_version_text_unchanged_changed_true
    ("\"g\" % \"a\" % \"1.2.3\"\nval libV = \"1.2.3\"\n\"g\" %% \"a\" % libV\n".toList)
    ("g".toList) ("a".toList) ("1.2.3".toList) false true
    (by decide) (by decide)
  refine ⟨by decide, ?_, ?_⟩
  · rw [h.1]; decide
  · rw [h.2]; decide

/-- C2: for every text and every matched dependency declaration (inline
or through a variable binding), the policy gates are evaluated in the
stated order — `onlyDowngradeProtect` with the existing triple strictly
greater skips with the text preserved exactly, else `skipMajor` with a
growing major component skips, otherwise the literal is rewritten to the
target and reported as changed: both rewriters coincide with the
specification-side rewriters built from exactly that gate. -/
theorem C2_policy_gate_order (original g a newv : List Char) (th sm : Bool) :
    lossless_upgrade original g a newv th sm
      = dependencyRewriterSpec original g a newv th sm
    ∧ lossless_upgrade_variable_refs original g a newv th sm
      = variableRewriterSpec original g a newv th sm :=
  ⟨lossless_upgrade_eq_spec original g a newv th sm,
   variable_refs_eq_spec original g a newv th sm⟩

/-- C3: for every input text, a match skipped by a policy gate
contributes its own bytes (`gap ++ group1 ++ "<version>"`) to the
output, and when every match is skipped the returned text is the input
itself, byte-identical, with `changed = false`. -/
theorem C3_skipped_matches_lossless (original g a v : List Char) (th sm : Bool) :
    ((∀ m ∈ (findIter g a original).1, gateSkipSpec th sm m.2.2 v = true) →
      lossless_upgrade original g a v th sm = (original, false))
    ∧ (∀ m ∈ (findIter g a original).1, gateSkipSpec th sm m.2.2 v = true →
        matchPiece v th sm m = (pieceText m, false)) :=
  ⟨lossless_upgrade_all_skipped original g a v th sm,
   fun _ _ hskip => matchPiece_skip hskip⟩

/-- C3 (witness): with `onlyDowngradeProtect` set and the existing
`1.2.3` above the target `1.0.0`, the single match is skipped and the
text survives byte-identically. -/
theorem C3_witness :
    ((findIter ("org.x".toList) ("y".toList)
        ("\"org.x\"  %%  \"y\"  %  \"1.2.3\"".toList)).1.all
      (fun m => gateSkipSpec true false m.2.2 ("1.0.0".toList))) = true
    ∧ lossless_upgrade ("\"org.x\"  %%  \"y\"  %  \"1.2.3\"".toList)
        ("org.x".toList) ("y".toList) ("1.0.0".toList) true false
      = ("\"org.x\"  %%  \"y\"  %  \"1.2.3\"".toList, false) := by
  refine ⟨by decide, ?_⟩
  exact (C3_skipped_matches_lossless ("\"org.x\"  %%  \"y\"  %  \"1.2.3\"".toList)
    ("org.x".toList) ("y".toList) ("1.0.0".toList) true false).1 (by decide)

/-- C4: `parse_version` is *not* total on arbitrary strings: on the
version string `²` the segment satisfies Python's `str.isdigit` (it is a
`Numeric_Type=Digit` codepoint), so the source calls `int("²")`, which
raises `ValueError` — modelled by `none` — whereas the claim requires
the parse to succeed with the segment degrading to 0.  On ordinary
version strings the parse behaves as described. -/
theorem C4_parse_version_superscript_raises :
    parse_version_u ("²".toList) = none
    ∧ parse_version_u ("1.2.3-RC1".toList) = some (1, 2, 3)
    ∧ parse_version ("1.2.3-RC1".toList) = (1, 2, 3) := by decide

/-- C5 (counterexample): on
`"g" % "a" % "g" % "a" % x` + a binding `val x = "0.1"`, the inline
rewrite to `1.0` consumes the overlapping declaration chain, so the
variable-indirection scan of the *modified* text finds no identifier and
leaves `val x` alone — while scanning the *original* text (as the claim
requires) finds `x` and rewrites its binding.  The two results differ. -/
theorem C5_counterexample :
    upgradeFileStep ("\"g\" % \"a\" % \"g\" % \"a\" % x\nval x = \"0.1\"\n".toList)
      ("g".toList) ("a".toList) ("1.0".toList) false false
    = ("\"g\" % \"a\" % \"1.0\" % \"a\" % x\nval x = \"0.1\"\n".toList, true, [])
    ∧ upgradeFileStepSpecScan ("\"g\" % \"a\" % \"g\" % \"a\" % x\nval x = \"0.1\"\n".toList)
      ("g".toList) ("a".toList) ("1.0".toList) false false
    = ("\"g\" % \"a\" % \"1.0\" % \"a\" % x\nval x = \"1.0\"\n".toList, true, [])
    ∧ ("\"g\" % \"a\" % \"1.0\" % \"a\" % x\nval x = \"0.1\"\n".toList : List Char)
      ≠ "\"g\" % \"a\" % \"1.0\" % \"a\" % x\nval x = \"1.0\"\n".toList := by
  refine ⟨by decide, by decide, by decide⟩

/-- C5 (amended): the two modes run in sequence with the
variable-indirection mode scanning the text already rewritten by the
direct-literal mode, not the original; the modes can therefore
interfere, and there are file texts on which the combined result
differs from matching each mode's pattern against the original text. -/
theorem C5_modes_scan_sequentially :
    ∃ (text g a v : List Char) (th sm : Bool),
      upgradeFileStep text g a v th sm ≠ upgradeFileStepSpecScan text g a v th sm := by
  refine ⟨"\"g\" % \"a\" % \"g\" % \"a\" % x\nval x = \"0.1\"\n".toList,
    "g".toList, "a".toList, "1.0".toList, false, false, ?_⟩
  decide

/-- C6 (counterexample): (i) for an identifier without a binding the
warning actually emitted is
`Variable '<identifier>' used for <group>:<artifact> but its definition
was not found in this file.` — not the claim's exact string
`<identifier> used for <group>:<artifact> but its definition was not
found`; (ii) the warning is not guaranteed at all: in a mixed file with
`y` bound and `x` unbound in the original text, rewriting `y`'s binding
with the quote-containing version `2.0", val x = "9.9` synthesizes a
`val x = "9.9"` binding in the running text, and `x` — an identifier
with no value-binding statement in the same file — is then rewritten
with no warning emitted (the warning list comes back empty). -/
theorem C6_counterexample :
    (lossless_upgrade_variable_refs ("\"g\" % \"a\" % fooVersion\n".toList)
        ("g".toList) ("a".toList) ("1.0".toList) false false).2.2
      = [warnMsg ("fooVersion".toList) ("g".toList) ("a".toList)]
    ∧ (lossless_upgrade_variable_refs ("\"g\" % \"a\" % fooVersion\n".toList)
        ("g".toList) ("a".toList) ("1.0".toList) false false).2.2
      ≠ ["fooVersion used for g:a but its definition was not found".toList]
    ∧ dedupFirst (findDeps ("g".toList) ("a".toList)
        ("\"g\" % \"a\" % y\n\"g\" % \"a\" % x\nval y = \"1.0\"\n".toList))
      = ["y".toList, "x".toList]
    ∧ valSearchGo ("x".toList)
        ("\"g\" % \"a\" % y\n\"g\" % \"a\" % x\nval y = \"1.0\"\n".toList) = none
    ∧ lossless_upgrade_variable_refs
        ("\"g\" % \"a\" % y\n\"g\" % \"a\" % x\nval y = \"1.0\"\n".toList)
        ("g".toList) ("a".toList) ("2.0\", val x = \"9.9".toList) false false
      = ("\"g\" % \"a\" % y\n\"g\" % \"a\" % x\nval y = \"2.0\", val x = \"2.0\", val x = \"9.9\"\n".toList,
         true, []) := by
  refine ⟨by decide, by decide, by decide, by decide, by decide⟩

/-- C6 (amended): each identifier's binding is looked up in the text as
already rewritten for the identifiers processed before it; whenever that
lookup finds no value binding, no rewrite occurs for that identifier,
the warning
`Variable '<identifier>' used for <group>:<artifact> but its definition
was not found in this file.` is appended, and processing continues with
the state otherwise unchanged.  In particular, on a file none of whose
referenced identifiers has a value-binding statement, the text and the
changed flag come back unmodified with exactly one such warning per
identifier, in processing order.  (An identifier unbound in the
original file is not guaranteed a warning: an earlier identifier's
rewrite can synthesize a binding for it, as the counterexample
shows.) -/
theorem C6_missing_binding_warning (original g a newv : List Char) (th sm : Bool)
    (h : ∀ name ∈ dedupFirst (findDeps g a original), valSearchGo name original = none) :
    lossless_upgrade_variable_refs original g a newv th sm
      = (original, false,
         (dedupFirst (findDeps g a original)).map (fun n => warnMsg n g a))
    ∧ (∀ (st : List Char × Bool × List (List Char)) (x : List Char),
        valSearchGo x st.1 = none →
        varStep g a newv th sm st x = (st.1, st.2.1, st.2.2 ++ [warnMsg x g a])) := by
  constructor
  · unfold lossless_upgrade_variable_refs varRefsGivenVars
    by_cases hemp : (dedupFirst (findDeps g a original)).isEmpty
    · rw [if_pos hemp]
      have hnil : dedupFirst (findDeps g a original) = [] := by simpa using hemp
      rw [hnil]
      simp
    · rw [if_neg hemp]
      rw [varFold_same_version g a newv th sm original _ false []
        (fun name hn bef pre val rest hsome => by
          rw [h name hn] at hsome
          exact absurd hsome (by simp))]
      have hany : (dedupFirst (findDeps g a original)).any
          (fun n => (valSearchGo n original).isSome) = false := by
        rw [List.any_eq_false]
        intro n hn
        rw [h n hn]
        simp
      have hfil : (dedupFirst (findDeps g a original)).filter
          (fun n => (valSearchGo n original).isNone) = dedupFirst (findDeps g a original) := by
        rw [List.filter_eq_self]
        intro n hn
        rw [h n hn]
        simp
      rw [hany, hfil]
      simp
  · intro st x hx
    unfold varStep
    rw [hx]

/-- C6 (witness): two unresolved identifiers, warned about in order,
with the text unchanged. -/
theorem C6_witness :
    ((dedupFirst (findDeps ("g".toList) ("a".toList)
        ("\"g\" % \"a\" % aVer\n\"g\" % \"a\" % bVer\n".toList))).all
      (fun n => (valSearchGo n ("\"g\" % \"a\" % aVer\n\"g\" % \"a\" % bVer\n".toList)).isNone))
      = true
    ∧ lossless_upgrade_variable_refs ("\"g\" % \"a\" % aVer\n\"g\" % \"a\" % bVer\n".toList)
        ("g".toList) ("a".toList) ("2.0".toList) true true
      = ("\"g\" % \"a\" % aVer\n\"g\" % \"a\" % bVer\n".toList, false,
         [warnMsg ("aVer".toList) ("g".toList) ("a".toList),
          warnMsg ("bVer".toList) ("g".toList) ("a".toList)]) := by
  have h := C6_missing_binding_warning
    ("\"g\" % \"a\" % aVer\n\"g\" % \"a\" % bVer\n".toList)
    ("g".toList) ("a".toList) ("2.0".toList) true true
    (by decide)
  refine ⟨by decide, ?_⟩
  rw [h.1]
  decide

/-- C7: for every branch-existence predicate and base name,
`make_unique_branch_name` returns the base when no branch of that name
exists, and otherwise `base-k` for the least `k ≥ 2` whose candidate is
unused (given enough loop budget, which the unbounded Python loop always
has when such a `k` exists). -/
theorem C7_unique_branch_name (ex : String → Bool) (base : String) :
    (ex base = false → ∀ fuel, make_unique_branch_name ex base fuel = some base)
    ∧ (∀ k fuel, ex base = true → 2 ≤ k →
        ex (base ++ "-" ++ toString k) = false →
        (∀ j, 2 ≤ j → j < k → ex (base ++ "-" ++ toString j) = true) →
        k - 2 < fuel →
        make_unique_branch_name ex base fuel = some (base ++ "-" ++ toString k)) := by
  constructor
  · intro hb fuel
    unfold make_unique_branch_name
    rw [hb]
    rfl
  · intro k fuel hb h2 hk hall hfuel
    unfold make_unique_branch_name
    rw [hb]
    simp only [Bool.not_true, Bool.false_eq_true, if_false]
    exact uniqueLoop_least ex base fuel 2 k h2 hk hall hfuel

/-- C7 (witness): with `upgrade-foo-1.0.0` taken, the same base resolves
to `upgrade-foo-1.0.0-2`. -/
theorem C7_witness :
    (fun b => b == "upgrade-foo-1.0.0") "upgrade-foo-1.0.0" = true
    ∧ make_unique_branch_name (fun b => b == "upgrade-foo-1.0.0") ("upgrade-foo-1.0.0") 1
      = some ("upgrade-foo-1.0.0-2") := by
  refine ⟨by decide, ?_⟩
  have h := (C7_unique_branch_name (fun b => b == "upgrade-foo-1.0.0")
    ("upgrade-foo-1.0.0")).2 2 1 (by decide) (by decide) (by decide)
    (fun j h1 h2 => absurd (Nat.lt_of_le_of_lt h1 h2) (Nat.lt_irrefl 2)) (by decide)
  rw [h]
  decide

/-- C8: `git_workflow` equals its specification: the steps run in order
(branch checkout, one stage per changed file, commit, push, PR
creation), the first non-zero exit aborts all remaining steps and
returns immediately with `success = false` and that step's error
message (the push-succeeded-but-PR-failed case carrying its own
distinct message from the plan's last entry), and on an all-zero run
`success = true` with the created PR's URL in the message.
Additionally, `success = true` holds exactly when every step of the
plan exits zero, in which case the message is the PR-URL message. -/
theorem C8_git_workflow_failfast (env : GitEnv) (repo_root : String)
    (changed_files : List String) (libs : List LibSpec) (fuel : Nat) :
    git_workflow env repo_root changed_files libs fuel
      = gitWorkflowSpec env repo_root changed_files libs fuel
    ∧ (∀ branch succ msg steps,
        make_unique_branch_name env.branchExists (build_branch_name libs) fuel
          = some branch →
        git_workflow env repo_root changed_files libs fuel = some (succ, msg, steps) →
        (succ = true ↔ ∀ e ∈ workflowPlan env repo_root branch changed_files, e.2.1 = 0)
        ∧ (succ = true →
            msg = "PR created for '" ++ basename repo_root ++ "': " ++ pyStrip env.pr.out)) := by
  refine ⟨git_workflow_eq_spec env repo_root changed_files libs fuel, ?_⟩
  intro branch succ msg steps hbr hrun
  rw [git_workflow_eq_spec] at hrun
  unfold gitWorkflowSpec at hrun
  rw [hbr] at hrun
  dsimp only at hrun
  cases hrp : runPlan (workflowPlan env repo_root branch changed_files) with
  | mk e st =>
    rw [hrp] at hrun
    cases e with
    | some m =>
      simp only [Option.some.injEq, Prod.mk.injEq] at hrun
      obtain ⟨rfl, rfl, rfl⟩ := hrun
      constructor
      · constructor
        · intro hfalse
          exact absurd hfalse (by simp)
        · intro hall
          have hnone := (runPlan_success_iff
            (workflowPlan env repo_root branch changed_files)).mpr hall
          rw [hrp] at hnone
          exact absurd hnone (by simp)
      · intro hfalse
        exact absurd hfalse (by simp)
    | none =>
      simp only [Option.some.injEq, Prod.mk.injEq] at hrun
      obtain ⟨rfl, rfl, rfl⟩ := hrun
      refine ⟨⟨fun _ => ?_, fun _ => rfl⟩, fun _ => rfl⟩
      have hnone := runPlan_success_iff (workflowPlan env repo_root branch changed_files)
      rw [hrp] at hnone
      exact hnone.mp rfl

/-- C8 (witness): one library, one changed file, everything succeeds:
the workflow runs all five steps and reports the PR URL. -/
theorem C8_witness :
    make_unique_branch_name demoEnv.branchExists
        (build_branch_name [⟨"org.x", "y", "1.2.3"⟩]) 1 = some ("upgrade-y-1.2.3")
    ∧ git_workflow demoEnv ("/work/repo") ["build.sbt"] [⟨"org.x", "y", "1.2.3"⟩] 1
      = some (true, "PR created for 'repo': https://example.com/pr/1",
          [.checkoutStep ("upgrade-y-1.2.3"), .addStep ("build.sbt"), .commitStep,
           .pushStep ("upgrade-y-1.2.3"), .prStep])
    ∧ (true = true ↔
        ∀ e ∈ workflowPlan demoEnv ("/work/repo") ("upgrade-y-1.2.3") ["build.sbt"],
          e.2.1 = 0) := by
  refine ⟨by decide, by decide, ?_⟩
  exact ((C8_git_workflow_failfast demoEnv ("/work/repo") ["build.sbt"]
      [⟨"org.x", "y", "1.2.3"⟩] 1).2 ("upgrade-y-1.2.3") true
      ("PR created for 'repo': https://example.com/pr/1")
      [.checkoutStep ("upgrade-y-1.2.3"), .addStep ("build.sbt"), .commitStep,
       .pushStep ("upgrade-y-1.2.3"), .prStep]
      (by decide) (by decide)).1

/-- C9 (counterexample): with two repository groups the apply-mode loop
interleaves writes and workflows — repository B's file is written only
after repository A's git workflow has already run — so it is not the
case that every file of every group is written before any workflow
starts. -/
theorem C9_counterexample :
    allWritesBeforeWorkflows false
      (applyPhase (fun _ => true)
        [(some ("repoA"), ["a.sbt"]), (some ("repoB"), ["b.sbt"])]) = false := by
  decide

/-- C9 (amended): in apply mode the repository groups are processed
sequentially; each group's modified files are all written to disk
before that group's own git workflow starts, every group's files are
written regardless of the outcomes of earlier groups' workflows (the
write events do not depend on the workflow oracle at all), but a later
group's files are written only after the earlier repositories'
workflows have run. -/
theorem C9_per_group_write_order (groups : List (Option String × List String))
    (oracle oracle2 : String → Bool)
    (hnd : (groups.map Prod.fst).Nodup) :
    groupWritesFirst [] (applyPhase oracle groups) = true
    ∧ writeEvents (applyPhase oracle groups)
      = groups.flatMap (fun grp => grp.2.map (fun p => (grp.1, p)))
    ∧ writeEvents (applyPhase oracle groups) = writeEvents (applyPhase oracle2 groups) := by
  refine ⟨applyPhase_groupWritesFirst oracle groups []
      (fun g _ s hs => absurd hs (List.not_mem_nil s)) hnd,
    applyPhase_writes oracle groups, ?_⟩
  rw [applyPhase_writes, applyPhase_writes]

/-- C9 (witness): the two-repository instance, with two different
workflow oracles standing for a failing and a succeeding run. -/
theorem C9_witness :
    ([some ("repoA"), some ("repoB")] : List (Option String)).Nodup
    ∧ groupWritesFirst []
        (applyPhase (fun _ => true)
          [(some ("repoA"), ["a.sbt"]), (some ("repoB"), ["b.sbt"])]) = true := by
  refine ⟨by decide, ?_⟩
  exact (C9_per_group_write_order
    [(some ("repoA"), ["a.sbt"]), (some ("repoB"), ["b.sbt"])]
    (fun _ => true) (fun _ => false) (by decide)).1

/-- C10: in minimal token-diff mode only the replace opcodes of the
alignment act on the file text: dropping every delete and insert opcode
from the alignment leaves the application's result unchanged, and an
alignment without replace opcodes leaves the file text exactly as it
was. -/
theorem C10_delete_insert_noops (content : List Char) (old new : List String)
    (opcodes : List Opcode) :
    applyTokOpsGo content content (align_tokens old new opcodes)
      = applyTokOpsGo content content (align_tokens old new
          (opcodes.filter (fun oc =>
            !(oc.tag = DiffTag.deleteTag || oc.tag = DiffTag.insertTag))))
    ∧ ((∀ oc ∈ opcodes, oc.tag ≠ DiffTag.replaceTag) →
        applyTokOpsGo content content (align_tokens old new opcodes) = some content) := by
  constructor
  · rw [applyTokOpsGo_filter, align_tokens_filter_del_ins, ← applyTokOpsGo_filter]
  · intro h
    rw [applyTokOpsGo_filter, align_tokens_no_replace old new opcodes h]
    rfl

/-- C10 (witness): aligning `a b` against `a` gives an equal opcode and
a delete opcode; applying the ops leaves the file text untouched — the
deleted token `b` stays in place. -/
theorem C10_witness :
    (∀ oc ∈ ([⟨DiffTag.equalTag, 0, 1, 0, 1⟩, ⟨DiffTag.deleteTag, 1, 2, 1, 1⟩] :
        List Opcode), oc.tag ≠ DiffTag.replaceTag)
    ∧ applyTokOpsGo ("x a b".toList) ("x a b".toList)
        (align_tokens ["a", "b"] ["a"]
          [⟨DiffTag.equalTag, 0, 1, 0, 1⟩, ⟨DiffTag.deleteTag, 1, 2, 1, 1⟩])
      = some ("x a b".toList) := by
  refine ⟨by decide, ?_⟩
  exact (C10_delete_insert_noops ("x a b".toList) ["a", "b"] ["a"]
    [⟨DiffTag.equalTag, 0, 1, 0, 1⟩, ⟨DiffTag.deleteTag, 1, 2, 1, 1⟩]).2 (by decide)
